import Mathlib

/-!
# BloodLink — verification of the blood-unit lifecycle and matching engine

Shallow embedding of the BloodLink repository's blood-stock logic.

Two kinds of definitions appear below:

* definitions translated from the frontend sources under
  `src/frontend/src` (`getStatusText`, `getSuggestedExpiryDate`, the
  `getStock` query-parameter merge, ...), faithful to the TypeScript;
* definitions of the backend Blood Unit Lifecycle & Matching Engine,
  which is not part of the repository sources (only its REST callers
  are).  Those are marked `Modelled from the spec:` in their doc
  comments and follow the specification's contracts word for word.

Times are modelled as integers: milliseconds since the epoch for the
frontend date arithmetic (which works on `Date.getTime()` values), and
whole days for the spec-modelled engine (whose contracts speak in days).
-/

namespace BloodLink

/-! ## Frontend date arithmetic (BloodStockManagement.tsx) -/

/-- Milliseconds per day, the `1000 * 60 * 60 * 24` constant of
`BloodStockManagement.tsx`. -/
def msPerDay : Int := 86400000

/-- Ceiling division for a positive divisor, the `Math.ceil(a / b)` of the
TypeScript (JavaScript division is exact on these operands, then
`Math.ceil` rounds up). -/
def ceilDiv (a b : Int) : Int := -((-a) / b)

/-- `Math.ceil((expiryDate.getTime() - today.getTime()) / (1000*60*60*24))`
from `getStatusText` / `getStatusColor` in `BloodStockManagement.tsx`. -/
def daysToExpiry (expiryDate now : Int) : Int := ceilDiv (expiryDate - now) msPerDay

/-- The fields of a stock row that `getStatusText` reads: the stored
`expiry_date` (as a millisecond timestamp) and the stored `is_expired`
flag returned by the backend. -/
structure StockRow where
  expiry_date : Int
  is_expired : Bool
deriving DecidableEq, Repr

/-- `getStatusText` from `BloodStockManagement.tsx` (lines 165-177),
translated clause by clause:
`if (stock.is_expired || daysToExpiry <= 0) return 'Expired';
 else if (daysToExpiry <= 7) return  ("Expires in " ++ N ++ " days");
 else return ("Expires in " ++ N ++ " days")`. -/
def getStatusText (stock : StockRow) (now : Int) : String :=
  if stock.is_expired ∨ daysToExpiry stock.expiry_date now ≤ 0 then
    "Expired"
  else if daysToExpiry stock.expiry_date now ≤ 7 then
    "Expires in " ++ toString (daysToExpiry stock.expiry_date now) ++ " days"
  else
    "Expires in " ++ toString (daysToExpiry stock.expiry_date now) ++ " days"

/-- The availability classification exactly as claim C4 words it for the
stock-management status function: `Expired` iff `now ≥ expiry_date`,
`Expires Soon` iff `0 < days_to_expiry ≤ 7`, `Available` otherwise, and
a pure function of `expiry_date` and `now` only (to be compared with
`getStatusText`, which the repository actually implements). -/
def claimedStatusText (stock : StockRow) (now : Int) : String :=
  if stock.expiry_date ≤ now then "Expired"
  else if daysToExpiry stock.expiry_date now ≤ 7 then "Expires Soon"
  else "Available"

/-- The proposition claim C4 asserts of the stock-management status
function: its value agrees everywhere with the pure classification by
`expiry_date` and `now` alone (and hence never depends on the stored
`is_expired` flag). -/
def c4ClaimProp : Prop :=
  ∀ (stock : StockRow) (now : Int), getStatusText stock now = claimedStatusText stock now

/-! ## Frontend expiry auto-fill (CreateBloodRequest.tsx, AddBloodComponent) -/

/-- The `switch (component)` of `getSuggestedExpiryDate` in
`CreateBloodRequest.tsx` (lines 499-525): shelf life in days per blood
component, with the `let daysToAdd = 35` default. -/
def shelfLifeDays (component : String) : Nat :=
  if component = "Whole Blood" then 35
  else if component = "Packed Cells" then 42
  else if component = "Fresh Frozen Plasma" then 365
  else if component = "Platelets" then 5
  else if component = "Cryoprecipitate" then 365
  else 35

/-- `getSuggestedExpiryDate(component, donationDate)`: returns the empty
value when no donation date is given, otherwise the donation date plus
the component's shelf life.  Dates are modelled as day numbers. -/
def getSuggestedExpiryDate (component : String) (donationDate : Option Nat) : Option Nat :=
  match donationDate with
  | none => none
  | some d => some (d + shelfLifeDays component)

/-- The add-blood form fields the auto-fill effect reads and writes
(`formData.component`, `formData.donation_date`, `formData.expiry_date`);
`none` models an empty (falsy) date field. -/
structure BloodStockForm where
  component : String
  donation_date : Option Nat
  expiry_date : Option Nat
deriving DecidableEq, Repr

/-- The `React.useEffect` of `CreateBloodRequest.tsx` (lines 528-533): when
a component and a donation date are set and the expiry date is still
empty, fill the expiry date with the suggestion; otherwise leave the form
unchanged. -/
def autoFillExpiry (f : BloodStockForm) : BloodStockForm :=
  if f.component ≠ "" ∧ f.donation_date.isSome ∧ f.expiry_date = none then
    { f with expiry_date := getSuggestedExpiryDate f.component f.donation_date }
  else f

/-! ## Frontend stock-listing query defaults (services/api.ts) -/

/-- The query parameters of `bloodstockAPI.getStock` that matter to the
default-merging logic; `none` models a key absent from the caller's
`params` object. -/
structure GetStockParams where
  my_hospital_only : Option Bool
  exclude_expired : Option Bool
  exclude_reserved : Option Bool
deriving DecidableEq, Repr

/-- `bloodstockAPI.getStock` (api.ts lines 179-187) builds
`{ my_hospital_only: true, ...params }`: the default `true` is written
first and any key present in `params` overrides it. -/
def getStockQueryParams (params : Option GetStockParams) : GetStockParams :=
  match params with
  | none => ⟨some true, none, none⟩
  | some p => ⟨some (p.my_hospital_only.getD true), p.exclude_expired, p.exclude_reserved⟩

/-! ## The Blood Unit Lifecycle & Matching Engine

Modelled from the spec: the backend behind the REST endpoints of
`services/api.ts` is not part of the repository sources, so the Inventory
Ledger, Donation Offer Manager and Request/Response Negotiator below
follow §3-§4 of the specification.  Where the spec leaves a design choice
open, the model picks one and says so:

* a transfer creates a fresh `BloodUnit` row at the destination hospital
  (the spec's "increment (or create)");
* `acceptResponse` always closes the request as FULFILLED on first
  acceptance (the spec's §9 open question);
* out-of-range counts (a non-positive `reserve` count, a non-positive
  transfer size) fail with `ValidationError`, per the §7 taxonomy.
-/

/-- The error taxonomy of §7. -/
inductive Err where
  | validation
  | insufficientStock
  | stateErr
  | conflict
  | notFound
  | authorizationErr
deriving DecidableEq, Repr

/-- Modelled from the spec: a Ledger row (§3 BloodUnit).  `unitsRecorded`
is the quantity originally recorded when the row was created; it is never
mutated afterwards. -/
structure BloodUnit where
  unitId : Nat
  hospital : Nat
  bloodType : String
  component : String
  unitsAvailable : Int
  unitsReserved : Int
  unitsRecorded : Int
  donationDate : Int
  expiryDate : Int
deriving DecidableEq, Repr

/-- Modelled from the spec: a ReservationToken (§4.1 `reserve`), holding
the unit it reserves against and the reserved count. -/
structure ResTok where
  tokenId : Nat
  unitId : Nat
  count : Int
deriving DecidableEq, Repr

/-- DonationOffer status (§3). -/
inductive OfferStatus where
  | offered
  | accepted
  | withdrawn
  | lapsed
deriving DecidableEq, Repr

/-- Modelled from the spec: a DonationOffer (§3), carrying the reservation
token `scheduleDonation` took for it. -/
structure DonationOffer where
  offerId : Nat
  sourceHospital : Nat
  unitId : Nat
  unitsOffered : Int
  status : OfferStatus
  tokenId : Nat
deriving DecidableEq, Repr

/-- BloodRequest status (§3). -/
inductive ReqStatus where
  | pending
  | approved
  | fulfilled
  | rejected
  | cancelled
deriving DecidableEq, Repr

/-- Modelled from the spec: a BloodRequest (§3). -/
structure BloodRequest where
  requestId : Nat
  requestingHospital : Nat
  targetHospital : Option Nat
  bloodType : String
  component : String
  unitsRequested : Int
  status : ReqStatus
deriving DecidableEq, Repr

/-- Modelled from the spec: a RequestResponse (§3). -/
structure RequestResponse where
  responseId : Nat
  requestId : Nat
  respondingHospital : Nat
  unitsOffered : Int
  accepted : Bool
deriving DecidableEq, Repr

/-- Modelled from the spec: the Transfer audit record (§ Glossary). -/
structure Transfer where
  refId : Nat
  fromHospital : Nat
  toHospital : Nat
  units : Int
deriving DecidableEq, Repr

/-- Modelled from the spec: the whole engine state — the Inventory
Ledger's rows and open reservation tokens, the donation offers, the blood
requests with their responses, and a fresh-identifier counter. -/
structure EngineState where
  units : List BloodUnit
  tokens : List ResTok
  offers : List DonationOffer
  requests : List BloodRequest
  responses : List RequestResponse
  nextId : Nat
deriving DecidableEq, Repr

/-- The empty engine state. -/
def initialState : EngineState := ⟨[], [], [], [], [], 0⟩

/-- Ledger lookup by unit identifier. -/
def findUnit (s : EngineState) (uid : Nat) : Option BloodUnit :=
  s.units.find? (fun u => u.unitId == uid)

/-- Apply `f` to the ledger row with identifier `uid` (identity on every
other row). -/
def updateUnit (s : EngineState) (uid : Nat) (f : BloodUnit → BloodUnit) : EngineState :=
  { s with units := s.units.map (fun u => if u.unitId == uid then f u else u) }

/-- Offer lookup by offer identifier. -/
def findOffer (s : EngineState) (oid : Nat) : Option DonationOffer :=
  s.offers.find? (fun o => o.offerId == oid)

/-- Request lookup by request identifier. -/
def findRequest (s : EngineState) (rid : Nat) : Option BloodRequest :=
  s.requests.find? (fun r => r.requestId == rid)

/-- Response lookup by response identifier. -/
def findResponse (s : EngineState) (respId : Nat) : Option RequestResponse :=
  s.responses.find? (fun r => r.responseId == respId)

/-- Set the status of the request with identifier `rid`. -/
def setRequestStatus (s : EngineState) (rid : Nat) (st : ReqStatus) : EngineState :=
  { s with requests :=
      s.requests.map (fun r => if r.requestId == rid then { r with status := st } else r) }

/-- Modelled from the spec: §4.1 `addStock`.  Fails with `ValidationError`
if `units < 1` or `expiryDate ≤ donationDate`; otherwise the unit enters
the ledger with `units_available = units` and `units_reserved = 0`. -/
def addStock (s : EngineState) (hospital : Nat) (bloodType component : String)
    (units donationDate expiryDate : Int) : Except Err (BloodUnit × EngineState) :=
  if units < 1 ∨ expiryDate ≤ donationDate then .error .validation
  else
    let u : BloodUnit :=
      ⟨s.nextId, hospital, bloodType, component, units, 0, units, donationDate, expiryDate⟩
    .ok (u, { s with units := s.units ++ [u], nextId := s.nextId + 1 })

/-- Modelled from the spec: §4.1 `reserve`.  Fails with
`InsufficientStockError` if `count > units_available` at the time of the
call (and with `ValidationError` on a non-positive count, per the §7
taxonomy). -/
def reserve (s : EngineState) (uid : Nat) (count : Int) : Except Err (ResTok × EngineState) :=
  if count < 1 then .error .validation
  else
    match findUnit s uid with
    | none => .error .notFound
    | some u =>
      if u.unitsAvailable < count then .error .insufficientStock
      else
        let t : ResTok := ⟨s.nextId, uid, count⟩
        let s1 := updateUnit s uid (fun v =>
          { v with unitsAvailable := v.unitsAvailable - count,
                   unitsReserved := v.unitsReserved + count })
        .ok (t, { s1 with tokens := t :: s1.tokens, nextId := s.nextId + 1 })

/-- Remove the first token with the given identifier from the open-token
list, returning it together with the remaining list. -/
def extractToken : List ResTok → Nat → Option (ResTok × List ResTok)
  | [], _ => none
  | t :: ts, tid =>
    if t.tokenId == tid then some (t, ts)
    else
      match extractToken ts tid with
      | some p => some (p.1, t :: p.2)
      | none => none

/-- Modelled from the spec: §4.1 `release(token)` — the reservation is
given back to `units_available`. -/
def release (s : EngineState) (tid : Nat) : Except Err EngineState :=
  match extractToken s.tokens tid with
  | none => .error .notFound
  | some (t, rest) =>
    let s1 := updateUnit s t.unitId (fun v =>
      { v with unitsAvailable := v.unitsAvailable + t.count,
               unitsReserved := v.unitsReserved - t.count })
    .ok { s1 with tokens := rest }

/-- Modelled from the spec: §4.1 `commit(token)` — the reserved quantity
leaves the source ledger row for good. -/
def commitTok (s : EngineState) (tid : Nat) : Except Err EngineState :=
  match extractToken s.tokens tid with
  | none => .error .notFound
  | some (t, rest) =>
    let s1 := updateUnit s t.unitId (fun v =>
      { v with unitsReserved := v.unitsReserved - t.count })
    .ok { s1 with tokens := rest }

/-- Modelled from the spec: one step of §4.2 `scheduleDonation` — reserve
the unit's full currently-available quantity and create an OFFERED
record.  A unit already fully reserved elsewhere (available quantity
below 1) fails with `InsufficientStockError`. -/
def scheduleOne (s : EngineState) (hospital uid : Nat) :
    Except Err (DonationOffer × EngineState) :=
  match findUnit s uid with
  | none => .error .notFound
  | some u =>
    if u.unitsAvailable < 1 then .error .insufficientStock
    else
      let t : ResTok := ⟨s.nextId, uid, u.unitsAvailable⟩
      let o : DonationOffer :=
        ⟨s.nextId + 1, hospital, uid, u.unitsAvailable, .offered, s.nextId⟩
      let s1 := updateUnit s uid (fun v =>
        { v with unitsAvailable := 0,
                 unitsReserved := v.unitsReserved + v.unitsAvailable })
      .ok (o, { s1 with tokens := t :: s1.tokens,
                        offers := o :: s1.offers,
                        nextId := s.nextId + 2 })

/-- Recursion of `scheduleDonation` over the referenced units.  An error
anywhere aborts the whole call with no resulting state (all-or-nothing). -/
def scheduleGo (hospital : Nat) :
    EngineState → List Nat → Except Err (List DonationOffer × EngineState)
  | s, [] => .ok ([], s)
  | s, uid :: rest =>
    match scheduleOne s hospital uid with
    | .error e => .error e
    | .ok (o, s1) =>
      match scheduleGo hospital s1 rest with
      | .error e => .error e
      | .ok (os, s2) => .ok (o :: os, s2)

/-- Modelled from the spec: §4.2 `scheduleDonation`.  Fails with
`ValidationError` when `unitRefs` is empty, atomically otherwise. -/
def scheduleDonation (s : EngineState) (hospital : Nat) (refs : List Nat) :
    Except Err (List DonationOffer × EngineState) :=
  if refs.isEmpty then .error .validation
  else scheduleGo hospital s refs

/-- Modelled from the spec: §4.2 `acceptDonation`.  Requires
`offer.status = OFFERED` (a lost race surfaces as `ConflictError`),
commits the offer's reservation at the source, creates the destination
row, marks the offer ACCEPTED and returns the Transfer record. -/
def acceptDonation (s : EngineState) (acceptingHospital oid : Nat) :
    Except Err (Transfer × EngineState) :=
  match findOffer s oid with
  | none => .error .notFound
  | some o =>
    if o.status = .offered then
      match extractToken s.tokens o.tokenId with
      | none => .error .notFound
      | some (t, rest) =>
        match findUnit s t.unitId with
        | none => .error .notFound
        | some src =>
          let s1 := updateUnit s t.unitId (fun v =>
            { v with unitsReserved := v.unitsReserved - t.count })
          let dest : BloodUnit :=
            ⟨s.nextId, acceptingHospital, src.bloodType, src.component,
              o.unitsOffered, 0, o.unitsOffered, src.donationDate, src.expiryDate⟩
          let s2 : EngineState :=
            { s1 with tokens := rest,
                      units := s1.units ++ [dest],
                      offers := s1.offers.map (fun q =>
                        if q.offerId == oid then { q with status := .accepted } else q),
                      nextId := s.nextId + 1 }
          .ok (⟨oid, o.sourceHospital, acceptingHospital, o.unitsOffered⟩, s2)
    else .error .conflict

/-- Modelled from the spec: §4.3 `createRequest` with status PENDING
(`unitsRequested ≥ 1` is required by the contract). -/
def createRequest (s : EngineState) (hospital : Nat) (bloodType component : String)
    (unitsRequested : Int) (target : Option Nat) :
    Except Err (BloodRequest × EngineState) :=
  if unitsRequested < 1 then .error .validation
  else
    let r : BloodRequest :=
      ⟨s.nextId, hospital, target, bloodType, component, unitsRequested, .pending⟩
    .ok (r, { s with requests := s.requests ++ [r], nextId := s.nextId + 1 })

/-- Modelled from the spec: §4.3 `respond`.  Fails with `StateError` if
`request.status ≠ PENDING`. -/
def respond (s : EngineState) (respondingHospital rid : Nat) (unitsOffered : Int) :
    Except Err (RequestResponse × EngineState) :=
  match findRequest s rid with
  | none => .error .notFound
  | some r =>
    if r.status ≠ ReqStatus.pending then .error .stateErr
    else if unitsOffered < 1 then .error .validation
    else
      let resp : RequestResponse := ⟨s.nextId, rid, respondingHospital, unitsOffered, false⟩
      .ok (resp, { s with responses := s.responses ++ [resp], nextId := s.nextId + 1 })

/-- Modelled from the spec: §4.3 `acceptResponse`.  The caller must own a
still-PENDING request, the response must belong to it; the transfer moves
`min(units_offered, units_requested)` units from a matching row of the
responder's ledger to a fresh row at the requester's hospital, marks the
response accepted and closes the request as FULFILLED (the always-close
resolution of the §9 open question). -/
def acceptResponse (s : EngineState) (caller rid respId : Nat) :
    Except Err (Transfer × EngineState) :=
  match findRequest s rid with
  | none => .error .notFound
  | some r =>
    match findResponse s respId with
    | none => .error .notFound
    | some resp =>
      if resp.requestId ≠ rid then .error .notFound
      else if r.requestingHospital ≠ caller then .error .authorizationErr
      else if r.status ≠ ReqStatus.pending then .error .stateErr
      else if min resp.unitsOffered r.unitsRequested < 1 then .error .validation
      else
        match s.units.find? (fun u =>
            u.hospital == resp.respondingHospital && u.bloodType == r.bloodType &&
            u.component == r.component &&
            decide (min resp.unitsOffered r.unitsRequested ≤ u.unitsAvailable)) with
        | none => .error .insufficientStock
        | some src =>
          let s1 := updateUnit s src.unitId (fun v =>
            { v with unitsAvailable :=
                v.unitsAvailable - min resp.unitsOffered r.unitsRequested })
          let dest : BloodUnit :=
            ⟨s.nextId, caller, r.bloodType, r.component,
              min resp.unitsOffered r.unitsRequested, 0,
              min resp.unitsOffered r.unitsRequested,
              src.donationDate, src.expiryDate⟩
          let s2 := setRequestStatus
            { s1 with units := s1.units ++ [dest], nextId := s.nextId + 1 } rid .fulfilled
          let s3 : EngineState :=
            { s2 with responses := s2.responses.map (fun q =>
                if q.responseId == respId then { q with accepted := true } else q) }
          .ok (⟨rid, resp.respondingHospital, caller,
                min resp.unitsOffered r.unitsRequested⟩, s3)

/-- A terminal BloodRequest status (§4.3 state machine). -/
def isTerminal : ReqStatus → Bool
  | .rejected => true
  | .cancelled => true
  | .fulfilled => true
  | _ => false

/-- Modelled from the spec: the §4.3 BloodRequest state machine —
PENDING → {APPROVED, REJECTED, CANCELLED, FULFILLED};
APPROVED → {FULFILLED, CANCELLED}; terminal states have no successors. -/
def allowedTransition : ReqStatus → ReqStatus → Bool
  | .pending, .approved => true
  | .pending, .rejected => true
  | .pending, .cancelled => true
  | .pending, .fulfilled => true
  | .approved, .fulfilled => true
  | .approved, .cancelled => true
  | _, _ => false

/-- Modelled from the spec: §4.3 `updateRequestStatus`, restricted to
{rejected, cancelled, fulfilled}; REJECTED only by a non-owner declining,
CANCELLED and FULFILLED only by the owning requester; any transition
outside the §4.3 state machine fails with `StateError`. -/
def updateRequestStatus (s : EngineState) (caller rid : Nat) (st : ReqStatus) :
    Except Err (BloodRequest × EngineState) :=
  if st ≠ ReqStatus.rejected ∧ st ≠ ReqStatus.cancelled ∧ st ≠ ReqStatus.fulfilled then
    .error .validation
  else
    match findRequest s rid with
    | none => .error .notFound
    | some r =>
      if st = ReqStatus.rejected ∧ r.requestingHospital = caller then .error .authorizationErr
      else if (st = ReqStatus.cancelled ∨ st = ReqStatus.fulfilled) ∧
          r.requestingHospital ≠ caller then .error .authorizationErr
      else if allowedTransition r.status st then
        .ok ({ r with status := st }, setRequestStatus s rid st)
      else .error .stateErr

/-- The matching-relevant search filters of §4.1 `querySearch`. -/
structure SearchFilters where
  bloodType : Option String
  component : Option String
  minUnits : Option Int
  excludeExpired : Bool
  excludeNearExpiry : Bool
deriving DecidableEq, Repr

/-- Modelled from the spec: §4.1 `computeAvailabilityStatus(unit, now)` —
Expired if `now ≥ expiry_date`; Expires Soon if `0 < days_to_expiry ≤ 7`;
Available otherwise.  Times are whole days. -/
def computeAvailabilityStatus (expiryDate now : Int) : String :=
  if expiryDate ≤ now then "Expired"
  else if expiryDate - now ≤ 7 then "Expires Soon"
  else "Available"

/-- The enriched view a search returns (§4.1, api.ts `BloodSearchResult`). -/
structure SearchView where
  unitId : Nat
  hospitalId : Nat
  bloodType : String
  component : String
  unitsAvailable : Int
  expiryDate : Int
  availabilityStatus : String
  isSameHospital : Bool
deriving DecidableEq, Repr

/-- Whether a ledger row passes the given filters at time `now`
(`excludeNearExpiry` uses the fixed 3-day threshold of §4.1). -/
def matchesFilters (f : SearchFilters) (now : Int) (u : BloodUnit) : Bool :=
  (match f.bloodType with | none => true | some bt => u.bloodType == bt) &&
  (match f.component with | none => true | some c => u.component == c) &&
  (match f.minUnits with | none => true | some m => decide (m ≤ u.unitsAvailable)) &&
  (!f.excludeExpired || decide (now < u.expiryDate)) &&
  (!f.excludeNearExpiry || decide (3 < u.expiryDate - now))

/-- Modelled from the spec: §4.1 `querySearch` with the §8 Scenario 1
same-hospital default exclusion — when `includeAllHospitals` is false
(the default), the caller's own rows are excluded; a pure read that
recomputes `availability_status` for every row it returns. -/
def querySearch (s : EngineState) (caller : Nat) (includeAllHospitals : Bool)
    (f : SearchFilters) (now : Int) : List SearchView :=
  (s.units.filter (fun u =>
      (includeAllHospitals || u.hospital != caller) && matchesFilters f now u)).map
    (fun u => ⟨u.unitId, u.hospital, u.bloodType, u.component, u.unitsAvailable,
               u.expiryDate, computeAvailabilityStatus u.expiryDate now,
               u.hospital == caller⟩)

/-- One engine operation, with its arguments; `commitTok` and `release`
are the Ledger primitives of §4.1, the rest are the §4.2/§4.3 calls. -/
inductive Command where
  | addStock (hospital : Nat) (bloodType component : String)
      (units donationDate expiryDate : Int)
  | reserve (uid : Nat) (count : Int)
  | release (tid : Nat)
  | commitTok (tid : Nat)
  | scheduleDonation (hospital : Nat) (refs : List Nat)
  | acceptDonation (hospital oid : Nat)
  | createRequest (hospital : Nat) (bloodType component : String)
      (unitsRequested : Int) (target : Option Nat)
  | respond (hospital rid : Nat) (unitsOffered : Int)
  | acceptResponse (caller rid respId : Nat)
  | updateRequestStatus (caller rid : Nat) (st : ReqStatus)
deriving Repr

/-- Execute one operation: a failing call leaves the engine state
untouched (the spec's atomic-failure discipline, §5/§7). -/
def step (s : EngineState) : Command → EngineState
  | .addStock h bt c u d e =>
    match addStock s h bt c u d e with | .ok (_, s') => s' | .error _ => s
  | .reserve uid count =>
    match reserve s uid count with | .ok (_, s') => s' | .error _ => s
  | .release tid =>
    match release s tid with | .ok s' => s' | .error _ => s
  | .commitTok tid =>
    match commitTok s tid with | .ok s' => s' | .error _ => s
  | .scheduleDonation h refs =>
    match scheduleDonation s h refs with | .ok (_, s') => s' | .error _ => s
  | .acceptDonation h oid =>
    match acceptDonation s h oid with | .ok (_, s') => s' | .error _ => s
  | .createRequest h bt c n tgt =>
    match createRequest s h bt c n tgt with | .ok (_, s') => s' | .error _ => s
  | .respond h rid n =>
    match respond s h rid n with | .ok (_, s') => s' | .error _ => s
  | .acceptResponse c rid respId =>
    match acceptResponse s c rid respId with | .ok (_, s') => s' | .error _ => s
  | .updateRequestStatus c rid st =>
    match updateRequestStatus s c rid st with | .ok (_, s') => s' | .error _ => s

/-- Run a sequence of operations from a starting state. -/
def runCommands (s : EngineState) (cs : List Command) : EngineState :=
  cs.foldl step s

/-- The status of the request with identifier `rid`, if it exists. -/
def statusOf (s : EngineState) (rid : Nat) : Option ReqStatus :=
  (findRequest s rid).map (fun r => r.status)

/-- Sum of the open reservation tokens held against unit `uid`. -/
def reservedSum (ts : List ResTok) (uid : Nat) : Int :=
  ((ts.filter (fun t => t.unitId == uid)).map (fun t => t.count)).sum

/-- Per-row counter sanity: both counters non-negative and their sum
bounded by the quantity originally recorded. -/
def unitOk (u : BloodUnit) : Prop :=
  0 ≤ u.unitsAvailable ∧ 0 ≤ u.unitsReserved ∧
  u.unitsAvailable + u.unitsReserved ≤ u.unitsRecorded

/-- The engine invariant: every ledger row satisfies `unitOk`, the stored
`units_reserved` of each row agrees with the open tokens held against it,
token counts are non-negative, offers carry non-negative quantities, all
identifiers are below the fresh-identifier counter, and row identifiers
are distinct. -/
def Inv (s : EngineState) : Prop :=
  (∀ u ∈ s.units, unitOk u) ∧
  (∀ u ∈ s.units, reservedSum s.tokens u.unitId = u.unitsReserved) ∧
  (∀ t ∈ s.tokens, 0 ≤ t.count) ∧
  (∀ t ∈ s.tokens, t.unitId < s.nextId) ∧
  (∀ u ∈ s.units, u.unitId < s.nextId) ∧
  (∀ o ∈ s.offers, 0 ≤ o.unitsOffered) ∧
  (s.units.map (fun u => u.unitId)).Nodup

end BloodLink

namespace BloodLink

/-! # Theorems for the frontend definitions -/

/-- Helper: the length of the non-expired `getStatusText` string. -/
theorem length_expires_in (x : String) :
    ("Expires in " ++ x ++ " days").length = 16 + x.length := by
  have h1 : "Expires in ".length = 11 := rfl
  have h2 : " days".length = 5 := rfl
  rw [String.length_append, String.length_append, h1, h2]
  omega

/-- Helper: the non-expired `getStatusText` string differs from any string
of length other than `16 + (toString d).length`. -/
theorem expires_in_ne (d : Int) (s : String)
    (hs : s.length ≠ 16 + (toString d).length) :
    ("Expires in " ++ toString d ++ " days") ≠ s := by
  intro hEq
  have hl := congrArg String.length hEq
  rw [length_expires_in] at hl
  exact hs hl.symm

/-- Helper: `getStatusText` collapses to a two-branch conditional, because
its two non-expired branches return the same string. -/
theorem getStatusText_eq (stock : StockRow) (now : Int) :
    getStatusText stock now =
      if stock.is_expired ∨ daysToExpiry stock.expiry_date now ≤ 0 then "Expired"
      else "Expires in " ++ toString (daysToExpiry stock.expiry_date now) ++ " days" := by
  unfold getStatusText
  by_cases h : stock.is_expired ∨ daysToExpiry stock.expiry_date now ≤ 0
  · rw [if_pos h, if_pos h]
  · rw [if_neg h, if_neg h]
    by_cases h7 : daysToExpiry stock.expiry_date now ≤ 7
    · rw [if_pos h7]
    · rw [if_neg h7]

/-- C4 (counterexample): claim C4 is false of `getStatusText`.  At the
concrete input `stock = ⟨864000000, true⟩`, `now = 0` — a row whose
expiry lies 10 days in the future but whose stored `is_expired` flag is
set — `getStatusText` answers `"Expired"` although the claimed pure
classification answers `"Available"`; so the function's result is read
from the stored flag and disagrees with the claimed classification. -/
theorem c4_statusText_counterexample : ¬ c4ClaimProp := by
  intro h
  have hx := h ⟨864000000, true⟩ 0
  revert hx
  decide

/-- C4 (amended): `getStatusText stock now` returns `"Expired"` exactly
when the stored `is_expired` flag is set or `daysToExpiry ≤ 0` (i.e.
`now ≥ expiry_date` up to the millisecond ceiling); in every other case
it returns the string `"Expires in N days"` with `N = daysToExpiry`; it
never returns `"Available"` and never returns `"Expires Soon"`, and it
does depend on the stored `is_expired` flag. -/
theorem c4_statusText_amended (stock : StockRow) (now : Int) :
    (getStatusText stock now = "Expired" ↔
      (stock.is_expired = true ∨ daysToExpiry stock.expiry_date now ≤ 0)) ∧
    (stock.is_expired = false → 0 < daysToExpiry stock.expiry_date now →
      getStatusText stock now =
        "Expires in " ++ toString (daysToExpiry stock.expiry_date now) ++ " days") ∧
    getStatusText stock now ≠ "Available" ∧
    getStatusText stock now ≠ "Expires Soon" := by
  rw [getStatusText_eq]
  by_cases hcond : stock.is_expired ∨ daysToExpiry stock.expiry_date now ≤ 0
  · rw [if_pos hcond]
    refine ⟨⟨fun _ => ?_, fun _ => rfl⟩, ?_, by decide, by decide⟩
    · rcases hcond with h | h
      · exact Or.inl h
      · exact Or.inr h
    · intro hfl hpos
      rcases hcond with h | h
      · rw [hfl] at h; exact absurd h (by decide)
      · omega
  · rw [if_neg hcond]
    have hfl : ¬ (stock.is_expired = true) := fun h => hcond (Or.inl h)
    have hpos : ¬ (daysToExpiry stock.expiry_date now ≤ 0) := fun h => hcond (Or.inr h)
    have hlen7 : ("Expired" : String).length = 7 := rfl
    have hlen9 : ("Available" : String).length = 9 := rfl
    have hlen12 : ("Expires Soon" : String).length = 12 := rfl
    refine ⟨⟨fun hEq => ?_, fun hor => ?_⟩, fun _ _ => rfl, ?_, ?_⟩
    · exact absurd hEq (expires_in_ne _ _ (by rw [hlen7]; omega))
    · rcases hor with h | h
      · exact absurd h hfl
      · exact absurd h hpos
    · exact expires_in_ne _ _ (by rw [hlen9]; omega)
    · exact expires_in_ne _ _ (by rw [hlen12]; omega)

/-- Witness for the amended C4 theorem at the concrete row with expiry 3
days ahead and a clear `is_expired` flag. -/
theorem c4_statusText_witness :
    getStatusText ⟨259200000, false⟩ 0 =
      "Expires in " ++ toString (daysToExpiry 259200000 0) ++ " days" :=
  (c4_statusText_amended ⟨259200000, false⟩ 0).2.1 rfl (by decide)

/-- C9: the expiry auto-fill suggests `donation_date` plus the
component-specific shelf life — Whole Blood 35, Packed Cells 42, Fresh
Frozen Plasma 365, Platelets 5, Cryoprecipitate 365, and 35 for any other
component — and the `useEffect` never overwrites an expiry date already
present: it only writes when component and donation date are set and the
expiry date is empty. -/
theorem c9_autofill_expiry (f : BloodStockForm) (d : Nat) :
    getSuggestedExpiryDate "Whole Blood" (some d) = some (d + 35) ∧
    getSuggestedExpiryDate "Packed Cells" (some d) = some (d + 42) ∧
    getSuggestedExpiryDate "Fresh Frozen Plasma" (some d) = some (d + 365) ∧
    getSuggestedExpiryDate "Platelets" (some d) = some (d + 5) ∧
    getSuggestedExpiryDate "Cryoprecipitate" (some d) = some (d + 365) ∧
    (∀ c : String, c ≠ "Whole Blood" → c ≠ "Packed Cells" →
      c ≠ "Fresh Frozen Plasma" → c ≠ "Platelets" → c ≠ "Cryoprecipitate" →
      getSuggestedExpiryDate c (some d) = some (d + 35)) ∧
    (f.expiry_date ≠ none → autoFillExpiry f = f) ∧
    (f.component ≠ "" → f.donation_date.isSome → f.expiry_date = none →
      (autoFillExpiry f).expiry_date = getSuggestedExpiryDate f.component f.donation_date) := by
  refine ⟨rfl, rfl, rfl, rfl, rfl, ?_, ?_, ?_⟩
  · intro c h1 h2 h3 h4 h5
    simp [getSuggestedExpiryDate, shelfLifeDays, h1, h2, h3, h4, h5]
  · intro hsome
    unfold autoFillExpiry
    rw [if_neg]
    intro ⟨_, _, hnone⟩
    exact hsome hnone
  · intro hc hd he
    unfold autoFillExpiry
    rw [if_pos ⟨hc, hd, he⟩]

/-- Witness for C9 at a concrete form: component set, donation day 100,
expiry empty — the auto-fill writes day 142 (Packed Cells, 42 days). -/
theorem c9_autofill_witness :
    (autoFillExpiry ⟨"Packed Cells", some 100, none⟩).expiry_date = some 142 := by
  have h := (c9_autofill_expiry ⟨"Packed Cells", some 100, none⟩ 100).2.2.2.2.2.2.2
    (by decide) (by decide) rfl
  simpa using h

/-- C10: `bloodstockAPI.getStock` sends `my_hospital_only = true` whenever
the caller omits that key (including when no params object is passed at
all), and a caller-supplied `my_hospital_only` value overrides the
default. -/
theorem c10_getStock_default (p : GetStockParams) :
    (getStockQueryParams none).my_hospital_only = some true ∧
    (p.my_hospital_only = none →
      (getStockQueryParams (some p)).my_hospital_only = some true) ∧
    (∀ b, p.my_hospital_only = some b →
      (getStockQueryParams (some p)).my_hospital_only = some b) := by
  refine ⟨rfl, ?_, ?_⟩
  · intro h
    simp [getStockQueryParams, h]
  · intro b h
    simp [getStockQueryParams, h]

/-- Witness for C10: a caller that explicitly sets
`my_hospital_only = false` overrides the default. -/
theorem c10_getStock_witness :
    (getStockQueryParams (some ⟨some false, none, none⟩)).my_hospital_only = some false :=
  (c10_getStock_default ⟨some false, none, none⟩).2.2 false rfl

/-! # Theorems for the engine (spec-modelled) -/

/-- C5: `addStock` fails with `ValidationError` exactly when `units < 1`
or `expiryDate ≤ donationDate`; in every other case it succeeds, and the
new row enters the ledger with `units_available` equal to the `units`
argument and `units_reserved = 0`. -/
theorem c5_addStock_validation (s : EngineState) (hosp : Nat) (bt comp : String)
    (units dDate eDate : Int) :
    (addStock s hosp bt comp units dDate eDate = .error .validation ↔
      (units < 1 ∨ eDate ≤ dDate)) ∧
    (¬ (units < 1 ∨ eDate ≤ dDate) →
      ∃ u s', addStock s hosp bt comp units dDate eDate = .ok (u, s')) ∧
    (∀ u s', addStock s hosp bt comp units dDate eDate = .ok (u, s') →
      u.unitsAvailable = units ∧ u.unitsReserved = 0 ∧ s'.units = s.units ++ [u]) := by
  unfold addStock
  by_cases h : units < 1 ∨ eDate ≤ dDate
  · rw [if_pos h]
    refine ⟨⟨fun _ => h, fun _ => rfl⟩, fun hc => absurd h hc, ?_⟩
    intro u s' hEq
    cases hEq
  · rw [if_neg h]
    refine ⟨⟨(fun hEq => nomatch hEq), fun hc => absurd hc h⟩, fun _ => ⟨_, _, rfl⟩, ?_⟩
    intro u s' hEq
    cases hEq
    exact ⟨rfl, rfl, rfl⟩

/-- Witness for C5: adding 10 units with expiry after donation succeeds,
with the counters the claim states. -/
theorem c5_addStock_witness :
    ∃ u s', addStock initialState 1 "O-" "Packed Cells" 10 0 41 = .ok (u, s') ∧
      u.unitsAvailable = 10 ∧ u.unitsReserved = 0 := by
  obtain ⟨u, s', h⟩ :=
    (c5_addStock_validation initialState 1 "O-" "Packed Cells" 10 0 41).2.1 (by decide)
  obtain ⟨h1, h2, -⟩ :=
    (c5_addStock_validation initialState 1 "O-" "Packed Cells" 10 0 41).2.2 u s' h
  exact ⟨u, s', h, h1, h2⟩

/-- C6: a successful `addStock` followed immediately by a search across
all hospitals whose filters match the added row (its blood type and
component) and that applies no exclusions returns that row with
`units_available` equal to the amount added. -/
theorem c6_addStock_search_roundtrip (s : EngineState) (hosp : Nat) (bt comp : String)
    (units dDate eDate now : Int) (u : BloodUnit) (s' : EngineState)
    (h : addStock s hosp bt comp units dDate eDate = .ok (u, s')) :
    ∃ v ∈ querySearch s' hosp true ⟨some bt, some comp, none, false, false⟩ now,
      v.unitId = u.unitId ∧ v.unitsAvailable = units := by
  unfold addStock at h
  by_cases hvalid : units < 1 ∨ eDate ≤ dDate
  · rw [if_pos hvalid] at h
    cases h
  · rw [if_neg hvalid] at h
    cases h
    apply Exists.intro
    constructor
    · exact List.mem_map_of_mem _ (List.mem_filter.2
        ⟨List.mem_append_right _ (List.mem_singleton.2 rfl), by simp [matchesFilters]⟩)
    · exact ⟨rfl, rfl⟩

/-- Witness for C6 at a concrete ledger: a fresh state, 10 units of O-
Packed Cells added, searched back. -/
theorem c6_roundtrip_witness :
    ∃ u s', addStock initialState 1 "O-" "Packed Cells" 10 0 41 = .ok (u, s') ∧
      ∃ v ∈ querySearch s' 1 true ⟨some "O-", some "Packed Cells", none, false, false⟩ 5,
        v.unitId = u.unitId ∧ v.unitsAvailable = 10 := by
  refine ⟨_, _, rfl, ?_⟩
  exact c6_addStock_search_roundtrip initialState 1 "O-" "Packed Cells" 10 0 41 5 _ _ rfl

/-- C7: after hospital A adds a unit to an empty ledger, a matching
blood-type search by A under the default settings (own hospital excluded)
returns the empty list, while the same search including all hospitals
returns exactly that one row, with `availability_status = "Available"`
when the expiry lies more than 7 days ahead. -/
theorem c7_same_hospital_default_exclusion (hosp : Nat) (bt comp : String)
    (units dDate eDate now : Int) (u : BloodUnit) (s' : EngineState)
    (h : addStock initialState hosp bt comp units dDate eDate = .ok (u, s'))
    (hfresh : 7 < eDate - now) :
    querySearch s' hosp false ⟨some bt, none, none, false, false⟩ now = [] ∧
    ∃ v, querySearch s' hosp true ⟨some bt, none, none, false, false⟩ now = [v] ∧
      v.availabilityStatus = "Available" ∧ v.unitsAvailable = units ∧
      v.isSameHospital = true := by
  unfold addStock at h
  by_cases hvalid : units < 1 ∨ eDate ≤ dDate
  · rw [if_pos hvalid] at h
    cases h
  · rw [if_neg hvalid] at h
    cases h
    have hstatus : computeAvailabilityStatus eDate now = "Available" := by
      unfold computeAvailabilityStatus
      rw [if_neg (by omega), if_neg (by omega)]
    constructor
    · unfold querySearch
      simp [initialState]
    · refine ⟨⟨0, hosp, bt, comp, units, eDate, "Available", true⟩, ?_, rfl, rfl, rfl⟩
      unfold querySearch
      simp [initialState, matchesFilters, hstatus]

/-- Helper: `find?` commutes with `map` by a function that preserves the
predicate. -/
theorem find?_map_pres {α : Type} (f : α → α) (p : α → Bool) (l : List α)
    (hp : ∀ a, p (f a) = p a) :
    (l.map f).find? p = (l.find? p).map f := by
  induction l with
  | nil => rfl
  | cons a t ih =>
    rw [List.map_cons]
    by_cases hpa : p a = true
    · rw [List.find?_cons_of_pos _ (show p (f a) = true from by rw [hp]; exact hpa),
          List.find?_cons_of_pos _ hpa]
      rfl
    · rw [List.find?_cons_of_neg _ (show ¬ p (f a) = true from by rw [hp]; exact hpa),
          List.find?_cons_of_neg _ hpa, ih]

/-- Helper: `find?` on an appended list keeps a hit found on the left. -/
theorem find?_append_left {α : Type} (l₁ l₂ : List α) (p : α → Bool) (a : α)
    (h : l₁.find? p = some a) : (l₁ ++ l₂).find? p = some a := by
  induction l₁ with
  | nil => cases h
  | cons b t ih =>
    by_cases hpb : p b = true
    · rw [List.find?_cons_of_pos _ hpb] at h
      rw [List.cons_append, List.find?_cons_of_pos _ hpb]
      exact h
    · rw [List.find?_cons_of_neg _ hpb] at h
      rw [List.cons_append, List.find?_cons_of_neg _ hpb]
      exact ih h

/-- Helper: the request-status update map preserves `requestId`-based
`find?` predicates, so `findRequest` after `setRequestStatus` is the
mapped original hit. -/
theorem findRequest_setRequestStatus (s : EngineState) (rid₀ rid : Nat) (st : ReqStatus) :
    findRequest (setRequestStatus s rid₀ st) rid =
      (findRequest s rid).map
        (fun r => if r.requestId == rid₀ then { r with status := st } else r) := by
  unfold findRequest setRequestStatus
  apply find?_map_pres
  intro a
  by_cases h : a.requestId == rid₀
  · rw [if_pos h]
  · rw [if_neg h]

/-- Helper: a successful `scheduleOne` leaves requests and responses
untouched. -/
theorem scheduleOne_requests (s : EngineState) (hosp uid : Nat)
    (p : DonationOffer × EngineState) (hok : scheduleOne s hosp uid = .ok p) :
    p.2.requests = s.requests := by
  obtain ⟨o, s1⟩ := p
  unfold scheduleOne at hok
  split at hok
  · cases hok
  · split at hok
    · cases hok
    · cases hok
      rfl

/-- Helper: a successful `scheduleGo` leaves requests untouched. -/
theorem scheduleGo_requests (hosp : Nat) (refs : List Nat) :
    ∀ (s : EngineState) (q : List DonationOffer × EngineState),
      scheduleGo hosp s refs = .ok q → q.2.requests = s.requests := by
  induction refs with
  | nil =>
    intro s q hok
    cases hok
    rfl
  | cons uid rest ih =>
    intro s q hok
    rw [scheduleGo] at hok
    cases hs1 : scheduleOne s hosp uid with
    | error e =>
      rw [hs1] at hok
      cases hok
    | ok p =>
      obtain ⟨o, s1⟩ := p
      rw [hs1] at hok
      dsimp only at hok
      cases hs2 : scheduleGo hosp s1 rest with
      | error e =>
        rw [hs2] at hok
        cases hok
      | ok q2 =>
        obtain ⟨os2, s2⟩ := q2
        rw [hs2] at hok
        cases hok
        have h2 := ih s1 (os2, s2) hs2
        have h1 := scheduleOne_requests s hosp uid (o, s1) hs1
        exact h2.trans h1

/-- Witness for C7: the §8 Scenario-1 numbers (10 units, donation day 0,
expiry day 41, searched at day 0). -/
theorem c7_exclusion_witness :
    ∃ u s', addStock initialState 1 "O-" "Packed Cells" 10 0 41 = .ok (u, s') ∧
      querySearch s' 1 false ⟨some "O-", none, none, false, false⟩ 0 = [] ∧
      ∃ v, querySearch s' 1 true ⟨some "O-", none, none, false, false⟩ 0 = [v] ∧
        v.availabilityStatus = "Available" := by
  refine ⟨_, _, rfl, ?_⟩
  have h := c7_same_hospital_default_exclusion 1 "O-" "Packed Cells" 10 0 41 0 _ _ rfl
    (by decide)
  exact ⟨h.1, h.2.imp fun v hv => ⟨hv.1, hv.2.1⟩⟩

/-! ## Request state machine (C8) -/

/-- Helper: `statusOf` depends only on the request list. -/
theorem statusOf_congr (s₁ s₂ : EngineState) (rid : Nat)
    (h : s₁.requests = s₂.requests) : statusOf s₁ rid = statusOf s₂ rid := by
  unfold statusOf findRequest
  rw [h]

/-- Helper: terminal request statuses admit no outgoing transition. -/
theorem terminal_no_transition :
    ∀ a b : ReqStatus, isTerminal a = true → allowedTransition a b = false := by
  intro a b
  cases a <;> cases b <;> decide

/-- Helper: a successful `addStock` leaves requests untouched. -/
theorem addStock_requests (s : EngineState) (hosp : Nat) (bt comp : String)
    (units d e : Int) (p : BloodUnit × EngineState)
    (hok : addStock s hosp bt comp units d e = .ok p) : p.2.requests = s.requests := by
  unfold addStock at hok
  split at hok
  · cases hok
  · cases hok
    rfl

/-- Helper: a successful `reserve` leaves requests untouched. -/
theorem reserve_requests (s : EngineState) (uid : Nat) (count : Int)
    (p : ResTok × EngineState) (hok : reserve s uid count = .ok p) :
    p.2.requests = s.requests := by
  unfold reserve at hok
  split at hok
  · cases hok
  · split at hok
    · cases hok
    · split at hok
      · cases hok
      · cases hok
        rfl

/-- Helper: a successful `release` leaves requests untouched. -/
theorem release_requests (s : EngineState) (tid : Nat) (s' : EngineState)
    (hok : release s tid = .ok s') : s'.requests = s.requests := by
  unfold release at hok
  split at hok
  · cases hok
  · cases hok
    rfl

/-- Helper: a successful `commitTok` leaves requests untouched. -/
theorem commitTok_requests (s : EngineState) (tid : Nat) (s' : EngineState)
    (hok : commitTok s tid = .ok s') : s'.requests = s.requests := by
  unfold commitTok at hok
  split at hok
  · cases hok
  · cases hok
    rfl

/-- Helper: a successful `acceptDonation` leaves requests untouched. -/
theorem acceptDonation_requests (s : EngineState) (hosp oid : Nat)
    (p : Transfer × EngineState) (hok : acceptDonation s hosp oid = .ok p) :
    p.2.requests = s.requests := by
  unfold acceptDonation at hok
  split at hok
  · cases hok
  · split at hok
    · split at hok
      · cases hok
      · split at hok
        · cases hok
        · cases hok
          rfl
    · cases hok

/-- Helper: a successful `respond` leaves requests untouched. -/
theorem respond_requests (s : EngineState) (hosp rid : Nat) (n : Int)
    (p : RequestResponse × EngineState) (hok : respond s hosp rid n = .ok p) :
    p.2.requests = s.requests := by
  unfold respond at hok
  split at hok
  · cases hok
  · split at hok
    · cases hok
    · split at hok
      · cases hok
      · cases hok
        rfl

/-- Helper: a successful `createRequest` appends the new PENDING request
and touches nothing else in the request list. -/
theorem createRequest_ok_inv (s : EngineState) (hosp : Nat) (bt comp : String)
    (n : Int) (tgt : Option Nat) (p : BloodRequest × EngineState)
    (hok : createRequest s hosp bt comp n tgt = .ok p) :
    p.2.requests = s.requests ++ [p.1] ∧ p.1.status = ReqStatus.pending := by
  unfold createRequest at hok
  split at hok
  · cases hok
  · cases hok
    exact ⟨rfl, rfl⟩

/-- Helper: a successful `acceptResponse` requires the request PENDING
and only rewrites that request's status to FULFILLED in the request
list. -/
theorem acceptResponse_ok_inv (s : EngineState) (caller rid respId : Nat)
    (p : Transfer × EngineState) (hok : acceptResponse s caller rid respId = .ok p) :
    ∃ r, findRequest s rid = some r ∧ r.status = ReqStatus.pending ∧
      p.2.requests = s.requests.map
        (fun q => if q.requestId == rid then { q with status := ReqStatus.fulfilled }
                  else q) := by
  unfold acceptResponse at hok
  split at hok
  · cases hok
  · rename_i r hr
    split at hok
    · cases hok
    · rename_i resp hresp
      split at hok
      · cases hok
      · split at hok
        · cases hok
        · split at hok
          · cases hok
          · rename_i hpend
            split at hok
            · cases hok
            · split at hok
              · cases hok
              · rename_i src hsrc
                cases hok
                exact ⟨r, hr, not_not.mp hpend, rfl⟩

/-- Helper: a successful `updateRequestStatus` is an allowed transition of
the found request and only rewrites that request's status. -/
theorem updateRequestStatus_ok_inv (s : EngineState) (caller rid : Nat) (st : ReqStatus)
    (p : BloodRequest × EngineState)
    (hok : updateRequestStatus s caller rid st = .ok p) :
    ∃ r, findRequest s rid = some r ∧ allowedTransition r.status st = true ∧
      p.2.requests = s.requests.map
        (fun q => if q.requestId == rid then { q with status := st } else q) := by
  unfold updateRequestStatus at hok
  split at hok
  · cases hok
  · split at hok
    · cases hok
    · rename_i r hr
      split at hok
      · cases hok
      · split at hok
        · cases hok
        · split at hok
          · rename_i hallow
            cases hok
            exact ⟨r, hr, hallow, rfl⟩
          · cases hok

/-- Helper: `find?` by request identifier commutes with the
status-rewriting map. -/
theorem findRequest_map_status (s : EngineState) (rid ridOp : Nat) (st₀ : ReqStatus) :
    (s.requests.map
        (fun q => if q.requestId == ridOp then { q with status := st₀ } else q)).find?
      (fun u => u.requestId == rid) =
    (s.requests.find? (fun u => u.requestId == rid)).map
      (fun q => if q.requestId == ridOp then { q with status := st₀ } else q) := by
  apply find?_map_pres
  intro a
  by_cases h : a.requestId == ridOp
  · rw [if_pos h]
  · rw [if_neg h]

/-- Helper: `respond` fails with `StateError` on a non-PENDING request. -/
theorem respond_stateErr_of_not_pending (s : EngineState) (hosp rid : Nat) (n : Int)
    (r : BloodRequest) (hr : findRequest s rid = some r)
    (hst : r.status ≠ ReqStatus.pending) :
    respond s hosp rid n = .error .stateErr := by
  unfold respond
  rw [hr]
  dsimp only
  rw [if_pos hst]

/-- C8: every status change a single engine operation makes to a
BloodRequest follows the §4.3 state machine (from PENDING only to
APPROVED, REJECTED, CANCELLED or FULFILLED; from APPROVED only to
FULFILLED or CANCELLED); a request already in a terminal status is never
changed by any operation; and `respond` fails with `StateError` whenever
the request's status is not PENDING. -/
theorem c8_request_state_machine (s : EngineState) (c : Command) (rid : Nat)
    (st st' : ReqStatus)
    (h1 : statusOf s rid = some st) (h2 : statusOf (step s c) rid = some st') :
    (st = st' ∨ allowedTransition st st' = true) ∧
    (isTerminal st = true → st' = st) ∧
    (∀ hosp n, st ≠ ReqStatus.pending →
      respond s hosp rid n = Except.error Err.stateErr) := by
  obtain ⟨r, hr, hrst⟩ : ∃ r, findRequest s rid = some r ∧ r.status = st := by
    unfold statusOf at h1
    cases hfr : findRequest s rid with
    | none =>
      rw [hfr] at h1
      cases h1
    | some r =>
      rw [hfr] at h1
      exact ⟨r, rfl, Option.some.inj h1⟩
  have hrid : r.requestId = rid := by
    have h := List.find?_some hr
    simpa using h
  have hstable : (step s c).requests = s.requests → st = st' := by
    intro hreq
    have h3 := (statusOf_congr _ _ rid hreq).symm.trans h2
    exact Option.some.inj (h1.symm.trans h3)
  have main : st = st' ∨ allowedTransition st st' = true := by
    cases c with
    | addStock hosp bt comp u d e =>
      refine Or.inl (hstable ?_)
      simp only [step]
      cases hop : addStock s hosp bt comp u d e with
      | error err => rfl
      | ok p =>
        obtain ⟨x, s'⟩ := p
        exact addStock_requests s hosp bt comp u d e (x, s') hop
    | reserve uid count =>
      refine Or.inl (hstable ?_)
      simp only [step]
      cases hop : reserve s uid count with
      | error err => rfl
      | ok p =>
        obtain ⟨x, s'⟩ := p
        exact reserve_requests s uid count (x, s') hop
    | release tid =>
      refine Or.inl (hstable ?_)
      simp only [step]
      cases hop : release s tid with
      | error err => rfl
      | ok s' => exact release_requests s tid s' hop
    | commitTok tid =>
      refine Or.inl (hstable ?_)
      simp only [step]
      cases hop : commitTok s tid with
      | error err => rfl
      | ok s' => exact commitTok_requests s tid s' hop
    | scheduleDonation hosp refs =>
      refine Or.inl (hstable ?_)
      simp only [step]
      cases hop : scheduleDonation s hosp refs with
      | error err => rfl
      | ok q =>
        obtain ⟨os, s'⟩ := q
        unfold scheduleDonation at hop
        split at hop
        · cases hop
        · exact scheduleGo_requests hosp refs s (os, s') hop
    | acceptDonation hosp oid =>
      refine Or.inl (hstable ?_)
      simp only [step]
      cases hop : acceptDonation s hosp oid with
      | error err => rfl
      | ok p =>
        obtain ⟨tr, s'⟩ := p
        exact acceptDonation_requests s hosp oid (tr, s') hop
    | respond hosp ridOp n =>
      refine Or.inl (hstable ?_)
      simp only [step]
      cases hop : respond s hosp ridOp n with
      | error err => rfl
      | ok p =>
        obtain ⟨resp, s'⟩ := p
        exact respond_requests s hosp ridOp n (resp, s') hop
    | createRequest hosp bt comp n tgt =>
      refine Or.inl ?_
      cases hop : createRequest s hosp bt comp n tgt with
      | error err =>
        apply hstable
        simp only [step]
        rw [hop]
      | ok p =>
        obtain ⟨r₀, s'⟩ := p
        obtain ⟨hreq, -⟩ := createRequest_ok_inv s hosp bt comp n tgt (r₀, s') hop
        have hstep : step s (.createRequest hosp bt comp n tgt) = s' := by
          simp only [step]
          rw [hop]
        rw [hstep] at h2
        have hfind : findRequest s' rid = some r := by
          unfold findRequest
          rw [show s'.requests = s.requests ++ [r₀] from hreq]
          exact find?_append_left _ _ _ _ hr
        unfold statusOf at h2
        rw [hfind] at h2
        exact hrst.symm.trans (Option.some.inj h2)
    | acceptResponse caller ridOp respId =>
      cases hop : acceptResponse s caller ridOp respId with
      | error err =>
        refine Or.inl (hstable ?_)
        simp only [step]
        rw [hop]
      | ok p =>
        obtain ⟨tr, s'⟩ := p
        obtain ⟨r₀, hr₀, hpend, hreq⟩ :=
          acceptResponse_ok_inv s caller ridOp respId (tr, s') hop
        have hstep : step s (.acceptResponse caller ridOp respId) = s' := by
          simp only [step]
          rw [hop]
        rw [hstep] at h2
        have hfind : findRequest s' rid =
            some (if r.requestId == ridOp then { r with status := ReqStatus.fulfilled }
                  else r) := by
          unfold findRequest
          rw [hreq, findRequest_map_status]
          unfold findRequest at hr
          rw [hr]
          rfl
        unfold statusOf at h2
        rw [hfind] at h2
        have hst' : st' =
            (if r.requestId == ridOp then { r with status := ReqStatus.fulfilled }
             else r).status := (Option.some.inj h2).symm
        by_cases hEq : (r.requestId == ridOp) = true
        · right
          have hrEq : rid = ridOp := by
            rw [← hrid]
            simpa using hEq
          have hrr : r = r₀ := by
            rw [hrEq] at hr
            rw [hr] at hr₀
            exact Option.some.inj hr₀
          rw [hst', if_pos hEq, ← hrst, hrr, hpend]
          rfl
        · left
          rw [hst', if_neg hEq, hrst]
    | updateRequestStatus caller ridOp st₀ =>
      cases hop : updateRequestStatus s caller ridOp st₀ with
      | error err =>
        refine Or.inl (hstable ?_)
        simp only [step]
        rw [hop]
      | ok p =>
        obtain ⟨r₁, s'⟩ := p
        obtain ⟨r₀, hr₀, hallow, hreq⟩ :=
          updateRequestStatus_ok_inv s caller ridOp st₀ (r₁, s') hop
        have hstep : step s (.updateRequestStatus caller ridOp st₀) = s' := by
          simp only [step]
          rw [hop]
        rw [hstep] at h2
        have hfind : findRequest s' rid =
            some (if r.requestId == ridOp then { r with status := st₀ } else r) := by
          unfold findRequest
          rw [hreq, findRequest_map_status]
          unfold findRequest at hr
          rw [hr]
          rfl
        unfold statusOf at h2
        rw [hfind] at h2
        have hst' : st' =
            (if r.requestId == ridOp then { r with status := st₀ } else r).status :=
          (Option.some.inj h2).symm
        by_cases hEq : (r.requestId == ridOp) = true
        · right
          have hrEq : rid = ridOp := by
            rw [← hrid]
            simpa using hEq
          have hrr : r = r₀ := by
            rw [hrEq] at hr
            rw [hr] at hr₀
            exact Option.some.inj hr₀
          rw [hst', if_pos hEq, ← hrst, hrr]
          exact hallow
        · left
          rw [hst', if_neg hEq, hrst]
  refine ⟨main, ?_, ?_⟩
  · intro hterm
    rcases main with h | h
    · exact h.symm
    · rw [terminal_no_transition st st' hterm] at h
      cases h
  · intro hosp n hstp
    exact respond_stateErr_of_not_pending s hosp rid n r hr (by rw [hrst]; exact hstp)

/-! ## Donation acceptance conflict (C2) -/

/-- Helper: `find?` by unit identifier commutes with a conditional
per-unit update that preserves identifiers. -/
theorem find?_unit_map_update (l : List BloodUnit) (uid uid' : Nat)
    (f : BloodUnit → BloodUnit) (hf : ∀ v, (f v).unitId = v.unitId) :
    (l.map (fun v => if v.unitId == uid then f v else v)).find?
        (fun v => v.unitId == uid') =
      (l.find? (fun v => v.unitId == uid')).map
        (fun v => if v.unitId == uid then f v else v) := by
  apply find?_map_pres
  intro a
  by_cases h : (a.unitId == uid) = true
  · rw [if_pos h, hf]
  · rw [if_neg h]

/-- Helper: a successful `scheduleOne` found a unit with positive
availability, reserved all of it, and created the OFFERED record — the
whole resulting state, explicitly. -/
theorem scheduleOne_ok_inv (s : EngineState) (hosp uid : Nat)
    (p : DonationOffer × EngineState) (hok : scheduleOne s hosp uid = .ok p) :
    ∃ u, findUnit s uid = some u ∧ 1 ≤ u.unitsAvailable ∧
      p.1 = ⟨s.nextId + 1, hosp, uid, u.unitsAvailable, .offered, s.nextId⟩ ∧
      p.2 = ⟨s.units.map (fun v => if v.unitId == uid then
                { v with unitsAvailable := 0,
                         unitsReserved := v.unitsReserved + v.unitsAvailable } else v),
             ⟨s.nextId, uid, u.unitsAvailable⟩ :: s.tokens,
             ⟨s.nextId + 1, hosp, uid, u.unitsAvailable, .offered, s.nextId⟩ :: s.offers,
             s.requests, s.responses, s.nextId + 2⟩ := by
  obtain ⟨o, s1⟩ := p
  unfold scheduleOne at hok
  split at hok
  · cases hok
  · rename_i u hu
    split at hok
    · cases hok
    · rename_i hlt
      cases hok
      exact ⟨u, hu, by omega, rfl, rfl⟩

/-- Helper: `acceptDonation` on an OFFERED offer whose token and source
unit are found commits the reservation, creates the destination row,
marks the offer ACCEPTED and returns the Transfer — explicitly. -/
theorem acceptDonation_offered_ok (s : EngineState) (acc : Nat) (o : DonationOffer)
    (t : ResTok) (rest : List ResTok) (u : BloodUnit)
    (ho : findOffer s o.offerId = some o)
    (hst : o.status = .offered)
    (hex : extractToken s.tokens o.tokenId = some (t, rest))
    (hfu : findUnit s t.unitId = some u) :
    acceptDonation s acc o.offerId =
      .ok (⟨o.offerId, o.sourceHospital, acc, o.unitsOffered⟩,
        { s with
          units := (s.units.map (fun v => if v.unitId == t.unitId then
                      { v with unitsReserved := v.unitsReserved - t.count } else v)) ++
            [⟨s.nextId, acc, u.bloodType, u.component, o.unitsOffered, 0,
              o.unitsOffered, u.donationDate, u.expiryDate⟩],
          tokens := rest,
          offers := s.offers.map (fun q =>
            if q.offerId == o.offerId then { q with status := .accepted } else q),
          nextId := s.nextId + 1 }) := by
  unfold acceptDonation
  rw [ho]
  dsimp only
  rw [if_pos hst, hex]
  dsimp only
  rw [hfu]
  rfl

/-- Helper: `acceptDonation` on an offer no longer OFFERED fails with
`ConflictError`. -/
theorem acceptDonation_conflict_of_not_offered (s : EngineState) (acc oid : Nat)
    (o : DonationOffer) (ho : findOffer s oid = some o)
    (hst : o.status ≠ .offered) :
    acceptDonation s acc oid = .error .conflict := by
  unfold acceptDonation
  rw [ho]
  dsimp only
  rw [if_neg hst]

/-- Helper: after the accepting map rewrites an offer's status, `find?` by
its identifier returns the ACCEPTED copy. -/
theorem findOffer_map_accept (offers : List DonationOffer) (oid : Nat) (o : DonationOffer)
    (h : offers.find? (fun q => q.offerId == oid) = some o) :
    (offers.map (fun q =>
        if q.offerId == oid then { q with status := OfferStatus.accepted } else q)).find?
      (fun q => q.offerId == oid) =
      some { o with status := OfferStatus.accepted } := by
  rw [find?_map_pres _ _ _ ?hp]
  · rw [h]
    dsimp only [Option.map]
    rw [if_pos (List.find?_some h)]
  case hp =>
    intro a
    by_cases hq : (a.offerId == oid) = true
    · rw [if_pos hq]
    · rw [if_neg hq]

/-- C2: after `scheduleDonation` creates an offer over a unit's full
available quantity N, two acceptances of that offer (serialized in either
order, the spec's §5 transaction discipline) behave as the conflict
property demands: the first returns a Transfer of N units and marks the
offer ACCEPTED, the second fails with `ConflictError`, and across the
whole flow the source row's `units_available` has decreased by exactly N
(not 2N and not 0) with its `units_reserved` back at its original
value. -/
theorem c2_accept_donation_conflict (s : EngineState) (hosp uid accA accB : Nat)
    (u : BloodUnit) (os : List DonationOffer) (s1 : EngineState)
    (hu : findUnit s uid = some u)
    (hsched : scheduleDonation s hosp [uid] = .ok (os, s1)) :
    ∃ o, os = [o] ∧ o.unitsOffered = u.unitsAvailable ∧ o.status = .offered ∧
      ∃ tr s2, acceptDonation s1 accA o.offerId = .ok (tr, s2) ∧
        tr.units = u.unitsAvailable ∧
        acceptDonation s2 accB o.offerId = .error .conflict ∧
        ∃ u', findUnit s2 uid = some u' ∧
          u'.unitsAvailable = u.unitsAvailable - o.unitsOffered ∧
          u'.unitsReserved = u.unitsReserved := by
  have hsg : scheduleGo hosp s [uid] = .ok (os, s1) := hsched
  have hbe : (u.unitId == uid) = true := by
    have h := List.find?_some (show s.units.find? (fun v => v.unitId == uid) = some u from hu)
    exact h
  cases hso : scheduleOne s hosp uid with
  | error e =>
    rw [scheduleGo, hso] at hsg
    cases hsg
  | ok p =>
    obtain ⟨o₀, sA⟩ := p
    rw [scheduleGo, hso] at hsg
    dsimp only at hsg
    rw [scheduleGo] at hsg
    dsimp only at hsg
    injection hsg with hp
    injection hp with hos hs1
    subst hos
    subst hs1
    obtain ⟨u', hu', hle, ho₀, hsA⟩ := scheduleOne_ok_inv s hosp uid (o₀, sA) hso
    rw [hu] at hu'
    obtain rfl := Option.some.inj hu'
    subst ho₀
    subst hsA
    refine ⟨_, rfl, rfl, rfl, ?_⟩
    have ho : findOffer
        ⟨s.units.map (fun v => if v.unitId == uid then
            { v with unitsAvailable := 0,
                     unitsReserved := v.unitsReserved + v.unitsAvailable } else v),
         ⟨s.nextId, uid, u.unitsAvailable⟩ :: s.tokens,
         ⟨s.nextId + 1, hosp, uid, u.unitsAvailable, .offered, s.nextId⟩ :: s.offers,
         s.requests, s.responses, s.nextId + 2⟩ (s.nextId + 1) =
        some ⟨s.nextId + 1, hosp, uid, u.unitsAvailable, .offered, s.nextId⟩ := by
      unfold findOffer
      exact List.find?_cons_of_pos _ (by simp)
    have hex : extractToken (⟨s.nextId, uid, u.unitsAvailable⟩ :: s.tokens) s.nextId =
        some (⟨s.nextId, uid, u.unitsAvailable⟩, s.tokens) := by
      simp [extractToken]
    have hfu : findUnit
        ⟨s.units.map (fun v => if v.unitId == uid then
            { v with unitsAvailable := 0,
                     unitsReserved := v.unitsReserved + v.unitsAvailable } else v),
         ⟨s.nextId, uid, u.unitsAvailable⟩ :: s.tokens,
         ⟨s.nextId + 1, hosp, uid, u.unitsAvailable, .offered, s.nextId⟩ :: s.offers,
         s.requests, s.responses, s.nextId + 2⟩ uid =
        some { u with unitsAvailable := 0,
                      unitsReserved := u.unitsReserved + u.unitsAvailable } := by
      unfold findUnit
      dsimp only
      rw [find?_unit_map_update s.units uid uid
        (fun v => { v with unitsAvailable := 0,
                           unitsReserved := v.unitsReserved + v.unitsAvailable })
        (fun v => rfl)]
      rw [show s.units.find? (fun v => v.unitId == uid) = some u from hu]
      dsimp only [Option.map]
      rw [if_pos hbe]
    have happly := acceptDonation_offered_ok
      ⟨s.units.map (fun v => if v.unitId == uid then
          { v with unitsAvailable := 0,
                   unitsReserved := v.unitsReserved + v.unitsAvailable } else v),
       ⟨s.nextId, uid, u.unitsAvailable⟩ :: s.tokens,
       ⟨s.nextId + 1, hosp, uid, u.unitsAvailable, .offered, s.nextId⟩ :: s.offers,
       s.requests, s.responses, s.nextId + 2⟩ accA
      ⟨s.nextId + 1, hosp, uid, u.unitsAvailable, .offered, s.nextId⟩
      ⟨s.nextId, uid, u.unitsAvailable⟩ s.tokens
      { u with unitsAvailable := 0,
               unitsReserved := u.unitsReserved + u.unitsAvailable }
      ho rfl hex hfu
    refine ⟨_, _, happly, rfl, ?_, ?_⟩
    · apply acceptDonation_conflict_of_not_offered _ accB _
        ⟨s.nextId + 1, hosp, uid, u.unitsAvailable, .accepted, s.nextId⟩
      · show findOffer _ _ = _
        have hfo2 := findOffer_map_accept
          (⟨s.nextId + 1, hosp, uid, u.unitsAvailable, .offered, s.nextId⟩ :: s.offers)
          (s.nextId + 1)
          ⟨s.nextId + 1, hosp, uid, u.unitsAvailable, .offered, s.nextId⟩
          (List.find?_cons_of_pos _ (by simp))
        exact hfo2
      · intro hcontra
        cases hcontra
    · refine ⟨⟨u.unitId, u.hospital, u.bloodType, u.component, 0,
        (u.unitsReserved + u.unitsAvailable) - u.unitsAvailable,
        u.unitsRecorded, u.donationDate, u.expiryDate⟩, ?_, ?_, ?_⟩
      · unfold findUnit
        dsimp only
        apply find?_append_left
        rw [find?_unit_map_update
          (s.units.map (fun v => if v.unitId == uid then
            { v with unitsAvailable := 0,
                     unitsReserved := v.unitsReserved + v.unitsAvailable } else v))
          uid uid
          (fun v => { v with unitsReserved := v.unitsReserved - u.unitsAvailable })
          (fun v => rfl)]
        rw [find?_unit_map_update s.units uid uid
          (fun v => { v with unitsAvailable := 0,
                             unitsReserved := v.unitsReserved + v.unitsAvailable })
          (fun v => rfl)]
        rw [show s.units.find? (fun v => v.unitId == uid) = some u from hu]
        dsimp only [Option.map]
        rw [if_pos hbe]
        dsimp only
        rw [if_pos hbe]
      · dsimp only
        omega
      · dsimp only
        omega

/-- Witness for C2: a ledger holding one unit of 10 available O- Packed
Cells; the offer is created, the first acceptance transfers 10 units, the
second fails with `ConflictError`, and the source row ends 10 units
down. -/
theorem c2_conflict_witness :
    ∃ os s1, scheduleDonation
        ⟨[⟨0, 1, "O-", "Packed Cells", 10, 0, 10, 0, 41⟩], [], [], [], [], 1⟩ 1 [0] =
        .ok (os, s1) ∧
      ∃ o, os = [o] ∧ o.unitsOffered = 10 ∧ o.status = .offered ∧
        ∃ tr s2, acceptDonation s1 2 o.offerId = .ok (tr, s2) ∧ tr.units = 10 ∧
          acceptDonation s2 3 o.offerId = .error .conflict ∧
          ∃ u', findUnit s2 0 = some u' ∧ u'.unitsAvailable = 10 - o.unitsOffered ∧
            u'.unitsReserved = 0 := by
  refine ⟨_, _, rfl, ?_⟩
  exact c2_accept_donation_conflict
    ⟨[⟨0, 1, "O-", "Packed Cells", 10, 0, 10, 0, 41⟩], [], [], [], [], 1⟩ 1 0 2 3
    ⟨0, 1, "O-", "Packed Cells", 10, 0, 10, 0, 41⟩ _ _ rfl rfl

/-! ## Atomicity of scheduleDonation (C3) -/

/-- Helper: when every referenced unit exists and some referenced unit has
no availability left, `scheduleGo` fails with `InsufficientStockError`. -/
theorem scheduleGo_insufficient (hosp : Nat) (refs : List Nat) :
    ∀ s : EngineState,
      (∀ uid ∈ refs, ∃ u, findUnit s uid = some u) →
      (∃ uid ∈ refs, ∃ u, findUnit s uid = some u ∧ u.unitsAvailable < 1) →
      scheduleGo hosp s refs = .error .insufficientStock := by
  induction refs with
  | nil =>
    intro s _ hbad
    obtain ⟨uid, hmem, -⟩ := hbad
    cases hmem
  | cons uid0 rest ih =>
    intro s hall hbad
    obtain ⟨u0, hu0⟩ := hall uid0 (List.mem_cons_self _ _)
    rw [scheduleGo]
    by_cases hlt : u0.unitsAvailable < 1
    · have h1 : scheduleOne s hosp uid0 = .error .insufficientStock := by
        unfold scheduleOne
        rw [hu0]
        dsimp only
        rw [if_pos hlt]
      rw [h1]
    · have h1 : scheduleOne s hosp uid0 =
          .ok (⟨s.nextId + 1, hosp, uid0, u0.unitsAvailable, .offered, s.nextId⟩,
            ⟨s.units.map (fun v => if v.unitId == uid0 then
                ⟨v.unitId, v.hospital, v.bloodType, v.component, 0,
                  v.unitsReserved + v.unitsAvailable, v.unitsRecorded,
                  v.donationDate, v.expiryDate⟩ else v),
             ⟨s.nextId, uid0, u0.unitsAvailable⟩ :: s.tokens,
             ⟨s.nextId + 1, hosp, uid0, u0.unitsAvailable, .offered, s.nextId⟩ :: s.offers,
             s.requests, s.responses, s.nextId + 2⟩) := by
        unfold scheduleOne
        rw [hu0]
        dsimp only
        rw [if_neg hlt]
        rfl
      rw [h1]
      dsimp only
      obtain ⟨uid', hmem', u', hu', hblt⟩ := hbad
      have hsAx : ∀ x : Nat,
          findUnit ⟨s.units.map (fun v => if v.unitId == uid0 then
              ⟨v.unitId, v.hospital, v.bloodType, v.component, 0,
                v.unitsReserved + v.unitsAvailable, v.unitsRecorded,
                v.donationDate, v.expiryDate⟩ else v),
            ⟨s.nextId, uid0, u0.unitsAvailable⟩ :: s.tokens,
            ⟨s.nextId + 1, hosp, uid0, u0.unitsAvailable, .offered, s.nextId⟩ :: s.offers,
            s.requests, s.responses, s.nextId + 2⟩ x =
          (s.units.find? (fun v => v.unitId == x)).map
            (fun v => if v.unitId == uid0 then
              ⟨v.unitId, v.hospital, v.bloodType, v.component, 0,
                v.unitsReserved + v.unitsAvailable, v.unitsRecorded,
                v.donationDate, v.expiryDate⟩ else v) := by
        intro x
        unfold findUnit
        dsimp only
        exact find?_unit_map_update s.units uid0 x _ (fun v => rfl)
      rw [ih]
      · intro x hx
        obtain ⟨v, hv⟩ := hall x (List.mem_cons_of_mem _ hx)
        refine ⟨if v.unitId == uid0 then
          ⟨v.unitId, v.hospital, v.bloodType, v.component, 0,
            v.unitsReserved + v.unitsAvailable, v.unitsRecorded,
            v.donationDate, v.expiryDate⟩ else v, ?_⟩
        rw [hsAx x, show s.units.find? (fun w => w.unitId == x) = some v from hv]
        rfl
      · by_cases huid : uid' = uid0
        · subst huid
          rw [hu'] at hu0
          obtain rfl := Option.some.inj hu0
          exact absurd hblt hlt
        · have hmem2 : uid' ∈ rest := by
            cases hmem' with
            | head => exact absurd rfl huid
            | tail _ h => exact h
          have hval : u'.unitId = uid' := by
            have h := List.find?_some
              (show s.units.find? (fun v => v.unitId == uid') = some u' from hu')
            simpa using h
          have hbne : (u'.unitId == uid0) = false := by
            rw [hval]
            simp [huid]
          refine ⟨uid', hmem2, u', ?_, hblt⟩
          rw [hsAx uid', show s.units.find? (fun w => w.unitId == uid') = some u' from hu']
          dsimp only [Option.map]
          rw [if_neg (by rw [hbne]; exact fun hc => nomatch hc)]

/-- Helper: a successful `scheduleGo` never loses an existing offer, and
touches a ledger row only by reserving its full positive availability. -/
theorem scheduleGo_frame (hosp : Nat) (refs : List Nat) :
    ∀ (s : EngineState) (q : List DonationOffer × EngineState),
      scheduleGo hosp s refs = .ok q →
      (∀ o ∈ s.offers, o ∈ q.2.offers) ∧
      (∀ x : Nat, findUnit q.2 x = findUnit s x ∨
        ∃ u, findUnit s x = some u ∧ 1 ≤ u.unitsAvailable ∧
          findUnit q.2 x = some ⟨u.unitId, u.hospital, u.bloodType, u.component, 0,
            u.unitsReserved + u.unitsAvailable, u.unitsRecorded,
            u.donationDate, u.expiryDate⟩) := by
  induction refs with
  | nil =>
    intro s q hok
    cases hok
    exact ⟨fun o ho => ho, fun x => Or.inl rfl⟩
  | cons uid0 rest ih =>
    intro s q hok
    rw [scheduleGo] at hok
    cases hso : scheduleOne s hosp uid0 with
    | error e =>
      rw [hso] at hok
      cases hok
    | ok p =>
      obtain ⟨o₀, sA⟩ := p
      rw [hso] at hok
      dsimp only at hok
      cases hsg : scheduleGo hosp sA rest with
      | error e =>
        rw [hsg] at hok
        cases hok
      | ok q2 =>
        obtain ⟨os2, s2⟩ := q2
        rw [hsg] at hok
        dsimp only at hok
        cases hok
        obtain ⟨u₀, hu₀, hle₀, ho₀, hsA⟩ := scheduleOne_ok_inv s hosp uid0 (o₀, sA) hso
        subst ho₀
        subst hsA
        obtain ⟨ihoff, ihunit⟩ := ih _ (os2, s2) hsg
        have hsAx : ∀ x : Nat,
            findUnit ⟨s.units.map (fun v => if v.unitId == uid0 then
                { v with unitsAvailable := 0,
                         unitsReserved := v.unitsReserved + v.unitsAvailable } else v),
              ⟨s.nextId, uid0, u₀.unitsAvailable⟩ :: s.tokens,
              ⟨s.nextId + 1, hosp, uid0, u₀.unitsAvailable, .offered, s.nextId⟩ :: s.offers,
              s.requests, s.responses, s.nextId + 2⟩ x =
            (s.units.find? (fun v => v.unitId == x)).map
              (fun v => if v.unitId == uid0 then
                { v with unitsAvailable := 0,
                         unitsReserved := v.unitsReserved + v.unitsAvailable } else v) := by
          intro x
          unfold findUnit
          dsimp only
          exact find?_unit_map_update s.units uid0 x _ (fun v => rfl)
        constructor
        · intro o ho
          exact ihoff o (List.mem_cons_of_mem _ ho)
        · intro x
          cases hfx : s.units.find? (fun v => v.unitId == x) with
          | none =>
            rcases ihunit x with hq | ⟨v, hv, hvle, hvq⟩
            · left
              rw [hq, hsAx x, hfx]
              exact (show findUnit s x = none from hfx).symm
            · rw [hsAx x, hfx] at hv
              simp at hv
          | some u =>
            have hux : u.unitId = x := by
              have h := List.find?_some hfx
              simpa using h
            by_cases hcu : (u.unitId == uid0) = true
            · have hx0 : uid0 = x := by
                have h : u.unitId = uid0 := by simpa using hcu
                rw [← hux, h]
              subst hx0
              have huu : u = u₀ := by
                have h : s.units.find? (fun v => v.unitId == uid0) = some u₀ := hu₀
                rw [hfx] at h
                exact Option.some.inj h
              rcases ihunit uid0 with hq | ⟨v, hv, hvle, hvq⟩
              · right
                refine ⟨u, show findUnit s uid0 = some u from hfx, ?_, ?_⟩
                · rw [huu]
                  exact hle₀
                · rw [hq, hsAx uid0, hfx]
                  dsimp only [Option.map]
                  rw [if_pos hcu]
              · rw [hsAx uid0, hfx] at hv
                dsimp only [Option.map] at hv
                rw [if_pos hcu] at hv
                obtain rfl := Option.some.inj hv
                exact absurd hvle (by dsimp only; omega)
            · rcases ihunit x with hq | ⟨v, hv, hvle, hvq⟩
              · left
                rw [hq, hsAx x, hfx]
                dsimp only [Option.map]
                rw [if_neg hcu]
                exact (show findUnit s x = some u from hfx).symm
              · rw [hsAx x, hfx] at hv
                dsimp only [Option.map] at hv
                rw [if_neg hcu] at hv
                obtain rfl := Option.some.inj hv
                right
                exact ⟨u, show findUnit s x = some u from hfx, hvle, hvq⟩

/-- Helper: a successful `scheduleGo` had found, for every referenced
unit, positive availability, and the resulting state holds that unit with
everything reserved plus a matching OFFERED record. -/
theorem scheduleGo_spec (hosp : Nat) (refs : List Nat) :
    ∀ (s : EngineState) (q : List DonationOffer × EngineState),
      scheduleGo hosp s refs = .ok q →
      ∀ uid ∈ refs, ∃ u, findUnit s uid = some u ∧ 1 ≤ u.unitsAvailable ∧
        ∃ u', findUnit q.2 uid = some u' ∧ u'.unitsAvailable = 0 ∧
          u'.unitsReserved = u.unitsReserved + u.unitsAvailable ∧
          ∃ o ∈ q.2.offers, o.unitId = uid ∧ o.status = .offered ∧
            o.unitsOffered = u.unitsAvailable := by
  induction refs with
  | nil =>
    intro s q hok uid hmem
    cases hmem
  | cons uid0 rest ih =>
    intro s q hok uid hmem
    rw [scheduleGo] at hok
    cases hso : scheduleOne s hosp uid0 with
    | error e =>
      rw [hso] at hok
      cases hok
    | ok p =>
      obtain ⟨o₀, sA⟩ := p
      rw [hso] at hok
      dsimp only at hok
      cases hsg : scheduleGo hosp sA rest with
      | error e =>
        rw [hsg] at hok
        cases hok
      | ok q2 =>
        obtain ⟨os2, s2⟩ := q2
        rw [hsg] at hok
        dsimp only at hok
        cases hok
        obtain ⟨u₀, hu₀, hle₀, ho₀, hsA⟩ := scheduleOne_ok_inv s hosp uid0 (o₀, sA) hso
        subst ho₀
        subst hsA
        obtain ⟨froff, frunit⟩ := scheduleGo_frame hosp rest _ (os2, s2) hsg
        have hbe₀ : (u₀.unitId == uid0) = true := by
          have h := List.find?_some
            (show s.units.find? (fun v => v.unitId == uid0) = some u₀ from hu₀)
          simpa using h
        have hsAx : ∀ x : Nat,
            findUnit ⟨s.units.map (fun v => if v.unitId == uid0 then
                { v with unitsAvailable := 0,
                         unitsReserved := v.unitsReserved + v.unitsAvailable } else v),
              ⟨s.nextId, uid0, u₀.unitsAvailable⟩ :: s.tokens,
              ⟨s.nextId + 1, hosp, uid0, u₀.unitsAvailable, .offered, s.nextId⟩ :: s.offers,
              s.requests, s.responses, s.nextId + 2⟩ x =
            (s.units.find? (fun v => v.unitId == x)).map
              (fun v => if v.unitId == uid0 then
                { v with unitsAvailable := 0,
                         unitsReserved := v.unitsReserved + v.unitsAvailable } else v) := by
          intro x
          unfold findUnit
          dsimp only
          exact find?_unit_map_update s.units uid0 x _ (fun v => rfl)
        cases hmem with
        | head =>
          have hzA : findUnit ⟨s.units.map (fun v => if v.unitId == uid0 then
                { v with unitsAvailable := 0,
                         unitsReserved := v.unitsReserved + v.unitsAvailable } else v),
              ⟨s.nextId, uid0, u₀.unitsAvailable⟩ :: s.tokens,
              ⟨s.nextId + 1, hosp, uid0, u₀.unitsAvailable, .offered, s.nextId⟩ :: s.offers,
              s.requests, s.responses, s.nextId + 2⟩ uid0 =
              some { u₀ with unitsAvailable := 0,
                             unitsReserved := u₀.unitsReserved + u₀.unitsAvailable } := by
            rw [hsAx uid0,
              show s.units.find? (fun v => v.unitId == uid0) = some u₀ from hu₀]
            dsimp only [Option.map]
            rw [if_pos hbe₀]
          rcases frunit uid0 with hq | ⟨v, hv, hvle, hvq⟩
          · refine ⟨u₀, hu₀, hle₀, _, hq.trans hzA, rfl, rfl,
              ⟨s.nextId + 1, hosp, uid0, u₀.unitsAvailable, .offered, s.nextId⟩,
              froff _ (List.mem_cons_self _ _), rfl, rfl, rfl⟩
          · rw [hzA] at hv
            obtain rfl := Option.some.inj hv
            exact absurd hvle (by dsimp only; omega)
        | tail _ hmem2 =>
          obtain ⟨v, hvA, hvle, hrest⟩ := ih _ (os2, s2) hsg uid hmem2
          rw [hsAx uid] at hvA
          cases hfu : s.units.find? (fun w => w.unitId == uid) with
          | none =>
            rw [hfu] at hvA
            simp at hvA
          | some u =>
            rw [hfu] at hvA
            dsimp only [Option.map] at hvA
            by_cases hcu : (u.unitId == uid0) = true
            · rw [if_pos hcu] at hvA
              obtain rfl := Option.some.inj hvA
              exact absurd hvle (by dsimp only; omega)
            · rw [if_neg hcu] at hvA
              obtain rfl := Option.some.inj hvA
              exact ⟨u, show findUnit s uid = some u from hfu, hvle, hrest⟩

/-- C3: `scheduleDonation` is all-or-nothing — it fails with
`ValidationError` on an empty unit set, fails with
`InsufficientStockError` when (all referenced units existing) some
referenced unit has no availability left, leaves the engine state
entirely unchanged on any failure, and on success every referenced unit
has its full previously-available quantity reserved with an OFFERED
record created for it. -/
theorem c3_schedule_atomicity (s : EngineState) (hosp : Nat) (refs : List Nat) :
    (refs = [] → scheduleDonation s hosp refs = .error .validation) ∧
    ((∀ uid ∈ refs, ∃ u, findUnit s uid = some u) →
      (∃ uid ∈ refs, ∃ u, findUnit s uid = some u ∧ u.unitsAvailable < 1) →
      scheduleDonation s hosp refs = .error .insufficientStock) ∧
    (∀ e, scheduleDonation s hosp refs = .error e →
      step s (.scheduleDonation hosp refs) = s) ∧
    (∀ os s', scheduleDonation s hosp refs = .ok (os, s') →
      ∀ uid ∈ refs, ∃ u, findUnit s uid = some u ∧ 1 ≤ u.unitsAvailable ∧
        ∃ u', findUnit s' uid = some u' ∧ u'.unitsAvailable = 0 ∧
          u'.unitsReserved = u.unitsReserved + u.unitsAvailable ∧
          ∃ o ∈ s'.offers, o.unitId = uid ∧ o.status = .offered ∧
            o.unitsOffered = u.unitsAvailable) := by
  refine ⟨?_, ?_, ?_, ?_⟩
  · intro h
    subst h
    rfl
  · intro hall hbad
    cases refs with
    | nil =>
      obtain ⟨uid, hmem, -⟩ := hbad
      cases hmem
    | cons a l =>
      exact scheduleGo_insufficient hosp (a :: l) s hall hbad
  · intro e he
    simp only [step]
    rw [he]
  · intro os s' hok uid hmem
    cases refs with
    | nil => cases hmem
    | cons a l =>
      exact scheduleGo_spec hosp (a :: l) s (os, s') hok uid hmem

/-- Witness for C3: scheduling the single unit whose availability is
exhausted (0 units available, 10 reserved) fails with
`InsufficientStockError`. -/
theorem c3_schedule_witness :
    scheduleDonation ⟨[⟨0, 1, "O-", "Packed Cells", 0, 10, 10, 0, 41⟩], [], [], [], [], 1⟩
      1 [0] = .error .insufficientStock := by
  have h := (c3_schedule_atomicity
    ⟨[⟨0, 1, "O-", "Packed Cells", 0, 10, 10, 0, 41⟩], [], [], [], [], 1⟩ 1 [0]).2.1
  exact h
    (fun uid hm => by
      simp only [List.mem_singleton] at hm
      subst hm
      exact ⟨⟨0, 1, "O-", "Packed Cells", 0, 10, 10, 0, 41⟩, rfl⟩)
    ⟨0, by decide, ⟨0, 1, "O-", "Packed Cells", 0, 10, 10, 0, 41⟩, rfl, by decide⟩

/-! ## The counter invariant (C1) -/

/-- Helper: `reservedSum` over a cons. -/
theorem reservedSum_cons (t : ResTok) (ts : List ResTok) (uid : Nat) :
    reservedSum (t :: ts) uid =
      (if t.unitId == uid then t.count else 0) + reservedSum ts uid := by
  unfold reservedSum
  rw [List.filter_cons]
  by_cases h : (t.unitId == uid) = true
  · rw [if_pos h, if_pos h, List.map_cons, List.sum_cons]
  · rw [if_neg h, if_neg h, zero_add]

/-- Helper: `reservedSum` of non-negative token counts is non-negative. -/
theorem reservedSum_nonneg (ts : List ResTok) (uid : Nat)
    (h : ∀ t ∈ ts, 0 ≤ t.count) : 0 ≤ reservedSum ts uid := by
  induction ts with
  | nil => exact le_refl 0
  | cons t ts ih =>
    rw [reservedSum_cons]
    have h0 := h t (List.mem_cons_self _ _)
    have h1 := ih (fun x hx => h x (List.mem_cons_of_mem _ hx))
    by_cases hc : (t.unitId == uid) = true
    · rw [if_pos hc]
      omega
    · rw [if_neg hc]
      omega

/-- Helper: no token held against a not-yet-issued unit identifier. -/
theorem reservedSum_eq_zero (ts : List ResTok) (n : Nat)
    (h : ∀ t ∈ ts, t.unitId < n) : reservedSum ts n = 0 := by
  induction ts with
  | nil => rfl
  | cons t ts ih =>
    rw [reservedSum_cons]
    have hlt := h t (List.mem_cons_self _ _)
    have hbne : (t.unitId == n) = false := by
      simp
      omega
    rw [if_neg (show ¬ ((t.unitId == n) = true) from by
      rw [hbne]; exact Bool.false_ne_true), zero_add]
    exact ih (fun x hx => h x (List.mem_cons_of_mem _ hx))

/-- Helper: `extractToken` removes exactly the found token: it was a
member with the requested identifier, the sums per unit drop by exactly
its count, and the remainder is a sub-collection. -/
theorem extractToken_spec (tid : Nat) :
    ∀ (ts : List ResTok) (t : ResTok) (rest : List ResTok),
      extractToken ts tid = some (t, rest) →
      t ∈ ts ∧ t.tokenId = tid ∧
      (∀ uid : Nat, reservedSum ts uid =
        (if t.unitId == uid then t.count else 0) + reservedSum rest uid) ∧
      (∀ x ∈ rest, x ∈ ts) := by
  intro ts
  induction ts with
  | nil =>
    intro t rest h
    cases h
  | cons a ts' ih =>
    intro t rest h
    rw [extractToken] at h
    split at h
    · rename_i hpos
      injection h with hp
      injection hp with ht hrest
      subst ht
      subst hrest
      refine ⟨List.mem_cons_self _ _, by simpa using hpos, ?_,
        fun x hx => List.mem_cons_of_mem _ hx⟩
      intro uid
      rw [reservedSum_cons]
    · split at h
      · rename_i p hp
        injection h with hpair
        injection hpair with ht hrest
        subst ht
        subst hrest
        obtain ⟨hmem, htid, hsum, hsub⟩ := ih p.1 p.2 (by rw [hp])
        refine ⟨List.mem_cons_of_mem _ hmem, htid, ?_, ?_⟩
        · intro uid
          rw [reservedSum_cons, hsum uid, reservedSum_cons]
          omega
        · intro x hx
          cases hx with
          | head => exact List.mem_cons_self _ _
          | tail _ hx2 => exact List.mem_cons_of_mem _ (hsub x hx2)
      · cases h

/-- Helper: membership in a conditionally-updated ledger comes from a
member of the original ledger, updated or untouched. -/
theorem mem_map_update {l : List BloodUnit} {uid : Nat} {f : BloodUnit → BloodUnit}
    {x : BloodUnit}
    (hx : x ∈ l.map (fun v => if v.unitId == uid then f v else v)) :
    ∃ v, v ∈ l ∧ (((v.unitId == uid) = true ∧ x = f v) ∨
      ((v.unitId == uid) = false ∧ x = v)) := by
  obtain ⟨v, hv, hvx⟩ := List.mem_map.1 hx
  refine ⟨v, hv, ?_⟩
  by_cases h : (v.unitId == uid) = true
  · exact Or.inl ⟨h, by rw [← hvx, if_pos h]⟩
  · exact Or.inr ⟨by simpa using h, by rw [← hvx, if_neg h]⟩

/-- Helper: a conditional per-unit update that preserves identifiers
leaves the ledger's identifier list unchanged. -/
theorem map_update_ids (l : List BloodUnit) (uid : Nat) (f : BloodUnit → BloodUnit)
    (hf : ∀ v, (f v).unitId = v.unitId) :
    (l.map (fun v => if v.unitId == uid then f v else v)).map (fun u => u.unitId) =
      l.map (fun u => u.unitId) := by
  rw [List.map_map]
  apply List.map_congr_left
  intro a _
  dsimp only [Function.comp]
  by_cases h : (a.unitId == uid) = true
  · rw [if_pos h, hf]
  · rw [if_neg h]

/-- Helper: `addStock` preserves the engine invariant. -/
theorem Inv_addStock (s : EngineState) (hosp : Nat) (bt comp : String)
    (units d e : Int) (p : BloodUnit × EngineState)
    (hok : addStock s hosp bt comp units d e = .ok p) (hInv : Inv s) : Inv p.2 := by
  obtain ⟨u, s'⟩ := p
  obtain ⟨h1, h2, h3, h4, h5, h6, h7⟩ := hInv
  unfold addStock at hok
  split at hok
  · cases hok
  · rename_i hval
    cases hok
    have hu1 : ¬ units < 1 := fun hc => hval (Or.inl hc)
    have hnot : s.nextId ∉ s.units.map (fun u => u.unitId) := by
      intro hc
      obtain ⟨v, hv, hveq⟩ := List.mem_map.1 hc
      have := h5 v hv
      omega
    refine ⟨?_, ?_, h3, ?_, ?_, h6, ?_⟩
    · intro x hx
      rcases List.mem_append.1 hx with hx | hx
      · exact h1 x hx
      · rw [List.mem_singleton.1 hx]
        exact ⟨by dsimp only; omega, le_refl 0, by dsimp only; omega⟩
    · intro x hx
      rcases List.mem_append.1 hx with hx | hx
      · exact h2 x hx
      · rw [List.mem_singleton.1 hx]
        exact reservedSum_eq_zero s.tokens s.nextId h4
    · intro t ht
      have := h4 t ht
      dsimp only
      omega
    · intro x hx
      rcases List.mem_append.1 hx with hx | hx
      · have := h5 x hx
        dsimp only
        omega
      · rw [List.mem_singleton.1 hx]
        dsimp only
        omega
    · rw [List.map_append]
      refine h7.append (List.nodup_singleton _) ?_
      intro a ha hb
      rw [show ((⟨s.nextId, hosp, bt, comp, units, 0, units, d, e⟩ :
        BloodUnit) :: []).map (fun u => u.unitId) = [s.nextId] from rfl] at hb
      rw [List.mem_singleton.1 hb] at ha
      exact hnot ha

/-- Helper: `reserve` preserves the engine invariant. -/
theorem Inv_reserve (s : EngineState) (uid : Nat) (count : Int)
    (p : ResTok × EngineState) (hok : reserve s uid count = .ok p)
    (hInv : Inv s) : Inv p.2 := by
  obtain ⟨tk, s'⟩ := p
  obtain ⟨h1, h2, h3, h4, h5, h6, h7⟩ := hInv
  unfold reserve at hok
  split at hok
  · cases hok
  · rename_i hcnt
    split at hok
    · cases hok
    · rename_i u hu
      split at hok
      · cases hok
      · rename_i hlt
        cases hok
        dsimp only [updateUnit]
        have humem : u ∈ s.units := List.mem_of_find?_eq_some
          (show s.units.find? (fun v => v.unitId == uid) = some u from hu)
        have hube : (u.unitId == uid) = true := by
          have h := List.find?_some
            (show s.units.find? (fun v => v.unitId == uid) = some u from hu)
          exact h
        have huid : u.unitId = uid := by simpa using hube
        refine ⟨?_, ?_, ?_, ?_, ?_, h6, ?_⟩
        · intro x hx
          obtain ⟨v, hv, hcase⟩ := mem_map_update hx
          rcases hcase with ⟨hveq, rfl⟩ | ⟨hveq, rfl⟩
          · have hvu : v = u := List.inj_on_of_nodup_map h7 hv humem (by
              have hv1 : v.unitId = uid := by simpa using hveq
              rw [hv1, huid])
            have hlt' : ¬ v.unitsAvailable < count := by rw [hvu]; exact hlt
            obtain ⟨ha, hb, hc⟩ := h1 v hv
            exact ⟨by dsimp only; omega, by dsimp only; omega, by dsimp only; omega⟩
          · exact h1 _ hv
        · intro x hx
          obtain ⟨v, hv, hcase⟩ := mem_map_update hx
          have hsum := h2 _ hv
          rcases hcase with ⟨hveq, rfl⟩ | ⟨hveq, rfl⟩
          · have hvuid : v.unitId = uid := by simpa using hveq
            dsimp only
            rw [reservedSum_cons]
            dsimp only
            rw [hvuid] at hsum ⊢
            rw [if_pos (by simp)]
            omega
          · rw [reservedSum_cons]
            dsimp only
            rw [if_neg (show ¬ ((uid == x.unitId) = true) from by
              simp
              have hvne : x.unitId ≠ uid := by simpa using hveq
              omega), zero_add]
            exact hsum
        · intro t ht
          cases ht with
          | head => dsimp only; omega
          | tail _ ht2 => exact h3 t ht2
        · intro t ht
          cases ht with
          | head =>
            dsimp only
            have := h5 u humem
            rw [huid] at this
            omega
          | tail _ ht2 =>
            have := h4 t ht2
            dsimp only
            omega
        · intro x hx
          obtain ⟨v, hv, hcase⟩ := mem_map_update hx
          have := h5 _ hv
          rcases hcase with ⟨_, rfl⟩ | ⟨_, rfl⟩
          · dsimp only
            omega
          · dsimp only
            omega
        · dsimp only
          rw [map_update_ids s.units uid
            (fun v => ⟨v.unitId, v.hospital, v.bloodType, v.component,
              v.unitsAvailable - count, v.unitsReserved + count, v.unitsRecorded,
              v.donationDate, v.expiryDate⟩) (fun v => rfl)]
          exact h7

/-- Helper: `release` preserves the engine invariant. -/
theorem Inv_release (s : EngineState) (tid : Nat) (s' : EngineState)
    (hok : release s tid = .ok s') (hInv : Inv s) : Inv s' := by
  obtain ⟨h1, h2, h3, h4, h5, h6, h7⟩ := hInv
  unfold release at hok
  split at hok
  · cases hok
  · rename_i t rest hex
    cases hok
    dsimp only [updateUnit]
    obtain ⟨htmem, htid, hsumEq, hsub⟩ := extractToken_spec tid s.tokens t rest hex
    have htc := h3 t htmem
    have hrest3 : ∀ x ∈ rest, 0 ≤ x.count := fun x hx => h3 x (hsub x hx)
    refine ⟨?_, ?_, hrest3, ?_, ?_, h6, ?_⟩
    · intro x hx
      obtain ⟨v, hv, hcase⟩ := mem_map_update hx
      rcases hcase with ⟨hveq, rfl⟩ | ⟨hveq, rfl⟩
      · obtain ⟨ha, hb, hc⟩ := h1 v hv
        have hsum := h2 v hv
        have heq := hsumEq v.unitId
        have hvid : v.unitId = t.unitId := by simpa using hveq
        rw [if_pos (show (t.unitId == v.unitId) = true from by rw [hvid]; simp)] at heq
        have hrnn := reservedSum_nonneg rest v.unitId hrest3
        exact ⟨by dsimp only; omega, by dsimp only; omega, by dsimp only; omega⟩
      · exact h1 _ hv
    · intro x hx
      obtain ⟨v, hv, hcase⟩ := mem_map_update hx
      have hsum := h2 _ hv
      rcases hcase with ⟨hveq, rfl⟩ | ⟨hveq, rfl⟩
      · have hvid : v.unitId = t.unitId := by simpa using hveq
        have heq := hsumEq v.unitId
        rw [if_pos (show (t.unitId == v.unitId) = true from by rw [hvid]; simp)] at heq
        dsimp only
        omega
      · have heq := hsumEq x.unitId
        rw [if_neg (show ¬ ((t.unitId == x.unitId) = true) from by
          simp
          have : x.unitId ≠ t.unitId := by simpa using hveq
          omega)] at heq
        dsimp only
        omega
    · intro tk htk
      have := h4 tk (hsub tk htk)
      dsimp only
      omega
    · intro x hx
      obtain ⟨v, hv, hcase⟩ := mem_map_update hx
      have := h5 _ hv
      rcases hcase with ⟨_, rfl⟩ | ⟨_, rfl⟩ <;> (dsimp only; omega)
    · dsimp only
      rw [map_update_ids s.units t.unitId
        (fun v => ⟨v.unitId, v.hospital, v.bloodType, v.component,
          v.unitsAvailable + t.count, v.unitsReserved - t.count, v.unitsRecorded,
          v.donationDate, v.expiryDate⟩) (fun v => rfl)]
      exact h7

/-- Helper: `commitTok` preserves the engine invariant. -/
theorem Inv_commitTok (s : EngineState) (tid : Nat) (s' : EngineState)
    (hok : commitTok s tid = .ok s') (hInv : Inv s) : Inv s' := by
  obtain ⟨h1, h2, h3, h4, h5, h6, h7⟩ := hInv
  unfold commitTok at hok
  split at hok
  · cases hok
  · rename_i t rest hex
    cases hok
    dsimp only [updateUnit]
    obtain ⟨htmem, htid, hsumEq, hsub⟩ := extractToken_spec tid s.tokens t rest hex
    have htc := h3 t htmem
    have hrest3 : ∀ x ∈ rest, 0 ≤ x.count := fun x hx => h3 x (hsub x hx)
    refine ⟨?_, ?_, hrest3, ?_, ?_, h6, ?_⟩
    · intro x hx
      obtain ⟨v, hv, hcase⟩ := mem_map_update hx
      rcases hcase with ⟨hveq, rfl⟩ | ⟨hveq, rfl⟩
      · obtain ⟨ha, hb, hc⟩ := h1 v hv
        have hsum := h2 v hv
        have heq := hsumEq v.unitId
        have hvid : v.unitId = t.unitId := by simpa using hveq
        rw [if_pos (show (t.unitId == v.unitId) = true from by rw [hvid]; simp)] at heq
        have hrnn := reservedSum_nonneg rest v.unitId hrest3
        exact ⟨by dsimp only; omega, by dsimp only; omega, by dsimp only; omega⟩
      · exact h1 _ hv
    · intro x hx
      obtain ⟨v, hv, hcase⟩ := mem_map_update hx
      have hsum := h2 _ hv
      rcases hcase with ⟨hveq, rfl⟩ | ⟨hveq, rfl⟩
      · have hvid : v.unitId = t.unitId := by simpa using hveq
        have heq := hsumEq v.unitId
        rw [if_pos (show (t.unitId == v.unitId) = true from by rw [hvid]; simp)] at heq
        dsimp only
        omega
      · have heq := hsumEq x.unitId
        rw [if_neg (show ¬ ((t.unitId == x.unitId) = true) from by
          simp
          have : x.unitId ≠ t.unitId := by simpa using hveq
          omega)] at heq
        dsimp only
        omega
    · intro tk htk
      have := h4 tk (hsub tk htk)
      dsimp only
      omega
    · intro x hx
      obtain ⟨v, hv, hcase⟩ := mem_map_update hx
      have := h5 _ hv
      rcases hcase with ⟨_, rfl⟩ | ⟨_, rfl⟩ <;> (dsimp only; omega)
    · dsimp only
      rw [map_update_ids s.units t.unitId
        (fun v => ⟨v.unitId, v.hospital, v.bloodType, v.component,
          v.unitsAvailable, v.unitsReserved - t.count, v.unitsRecorded,
          v.donationDate, v.expiryDate⟩) (fun v => rfl)]
      exact h7

/-- Helper: `scheduleOne` preserves the engine invariant. -/
theorem Inv_scheduleOne (s : EngineState) (hosp uid : Nat)
    (p : DonationOffer × EngineState) (hok : scheduleOne s hosp uid = .ok p)
    (hInv : Inv s) : Inv p.2 := by
  obtain ⟨o, s'⟩ := p
  obtain ⟨h1, h2, h3, h4, h5, h6, h7⟩ := hInv
  unfold scheduleOne at hok
  split at hok
  · cases hok
  · rename_i u hu
    split at hok
    · cases hok
    · rename_i hlt
      cases hok
      dsimp only [updateUnit]
      have humem : u ∈ s.units := List.mem_of_find?_eq_some
        (show s.units.find? (fun v => v.unitId == uid) = some u from hu)
      have hube : (u.unitId == uid) = true := by
        have h := List.find?_some
          (show s.units.find? (fun v => v.unitId == uid) = some u from hu)
        exact h
      have huid : u.unitId = uid := by simpa using hube
      refine ⟨?_, ?_, ?_, ?_, ?_, ?_, ?_⟩
      · intro x hx
        obtain ⟨v, hv, hcase⟩ := mem_map_update hx
        rcases hcase with ⟨hveq, rfl⟩ | ⟨hveq, rfl⟩
        · obtain ⟨ha, hb, hc⟩ := h1 v hv
          exact ⟨by dsimp only; omega, by dsimp only; omega, by dsimp only; omega⟩
        · exact h1 _ hv
      · intro x hx
        obtain ⟨v, hv, hcase⟩ := mem_map_update hx
        have hsum := h2 _ hv
        rcases hcase with ⟨hveq, rfl⟩ | ⟨hveq, rfl⟩
        · have hvu : v = u := List.inj_on_of_nodup_map h7 hv humem (by
            have hv1 : v.unitId = uid := by simpa using hveq
            rw [hv1, huid])
          have hvuid : v.unitId = uid := by simpa using hveq
          dsimp only
          rw [reservedSum_cons]
          dsimp only
          rw [hvuid] at hsum ⊢
          rw [hvu] at hsum
          rw [if_pos (by simp), hvu]
          omega
        · rw [reservedSum_cons]
          dsimp only
          rw [if_neg (show ¬ ((uid == x.unitId) = true) from by
            simp
            have : x.unitId ≠ uid := by simpa using hveq
            omega), zero_add]
          exact hsum
      · intro tk htk
        cases htk with
        | head => dsimp only; omega
        | tail _ h => exact h3 tk h
      · intro tk htk
        cases htk with
        | head =>
          dsimp only
          have := h5 u humem
          rw [huid] at this
          omega
        | tail _ h =>
          have := h4 tk h
          dsimp only
          omega
      · intro x hx
        obtain ⟨v, hv, hcase⟩ := mem_map_update hx
        have := h5 _ hv
        rcases hcase with ⟨_, rfl⟩ | ⟨_, rfl⟩ <;> (dsimp only; omega)
      · intro q hq
        cases hq with
        | head => dsimp only; omega
        | tail _ h => exact h6 q h
      · dsimp only
        rw [map_update_ids s.units uid
          (fun v => ⟨v.unitId, v.hospital, v.bloodType, v.component, 0,
            v.unitsReserved + v.unitsAvailable, v.unitsRecorded,
            v.donationDate, v.expiryDate⟩) (fun v => rfl)]
        exact h7

/-- Helper: `scheduleGo` preserves the engine invariant. -/
theorem Inv_scheduleGo (hosp : Nat) (refs : List Nat) :
    ∀ (s : EngineState) (q : List DonationOffer × EngineState),
      scheduleGo hosp s refs = .ok q → Inv s → Inv q.2 := by
  induction refs with
  | nil =>
    intro s q hok hInv
    cases hok
    exact hInv
  | cons uid rest ih =>
    intro s q hok hInv
    rw [scheduleGo] at hok
    cases hso : scheduleOne s hosp uid with
    | error e =>
      rw [hso] at hok
      cases hok
    | ok p =>
      obtain ⟨o, sA⟩ := p
      rw [hso] at hok
      dsimp only at hok
      cases hsg : scheduleGo hosp sA rest with
      | error e =>
        rw [hsg] at hok
        cases hok
      | ok q2 =>
        obtain ⟨os2, s2⟩ := q2
        rw [hsg] at hok
        dsimp only at hok
        cases hok
        exact ih sA (os2, s2) hsg (Inv_scheduleOne s hosp uid (o, sA) hso hInv)

/-- Helper: `acceptDonation` preserves the engine invariant. -/
theorem Inv_acceptDonation (s : EngineState) (acc oid : Nat)
    (p : Transfer × EngineState) (hok : acceptDonation s acc oid = .ok p)
    (hInv : Inv s) : Inv p.2 := by
  obtain ⟨tr, s'⟩ := p
  obtain ⟨h1, h2, h3, h4, h5, h6, h7⟩ := hInv
  unfold acceptDonation at hok
  split at hok
  · cases hok
  · rename_i o ho
    split at hok
    · split at hok
      · cases hok
      · rename_i t rest hex
        split at hok
        · cases hok
        · rename_i src hsrc
          cases hok
          dsimp only [updateUnit]
          obtain ⟨htmem, htid, hsumEq, hsub⟩ := extractToken_spec o.tokenId s.tokens t rest hex
          have homem : o ∈ s.offers := List.mem_of_find?_eq_some
            (show s.offers.find? (fun q => q.offerId == oid) = some o from ho)
          have hooff := h6 o homem
          have htc := h3 t htmem
          have hrest3 : ∀ x ∈ rest, 0 ≤ x.count := fun x hx => h3 x (hsub x hx)
          have hrest4 : ∀ x ∈ rest, x.unitId < s.nextId := fun x hx => h4 x (hsub x hx)
          have hnotid : s.nextId ∉ s.units.map (fun u => u.unitId) := by
            intro hc
            obtain ⟨v, hv, hveq⟩ := List.mem_map.1 hc
            have := h5 v hv
            omega
          refine ⟨?_, ?_, hrest3, ?_, ?_, ?_, ?_⟩
          · intro x hx
            rcases List.mem_append.1 hx with hx | hx
            · obtain ⟨v, hv, hcase⟩ := mem_map_update hx
              rcases hcase with ⟨hveq, rfl⟩ | ⟨hveq, rfl⟩
              · obtain ⟨ha, hb, hc⟩ := h1 v hv
                have hsum := h2 v hv
                have heq := hsumEq v.unitId
                have hvid : v.unitId = t.unitId := by simpa using hveq
                rw [if_pos (show (t.unitId == v.unitId) = true from by
                  rw [hvid]; simp)] at heq
                have hrnn := reservedSum_nonneg rest v.unitId hrest3
                exact ⟨by dsimp only; omega, by dsimp only; omega, by dsimp only; omega⟩
              · exact h1 _ hv
            · rw [List.mem_singleton.1 hx]
              exact ⟨by dsimp only; omega, le_refl 0, by dsimp only; omega⟩
          · intro x hx
            rcases List.mem_append.1 hx with hx | hx
            · obtain ⟨v, hv, hcase⟩ := mem_map_update hx
              have hsum := h2 _ hv
              rcases hcase with ⟨hveq, rfl⟩ | ⟨hveq, rfl⟩
              · have hvid : v.unitId = t.unitId := by simpa using hveq
                have heq := hsumEq v.unitId
                rw [if_pos (show (t.unitId == v.unitId) = true from by
                  rw [hvid]; simp)] at heq
                dsimp only
                omega
              · have heq := hsumEq x.unitId
                rw [if_neg (show ¬ ((t.unitId == x.unitId) = true) from by
                  simp
                  have : x.unitId ≠ t.unitId := by simpa using hveq
                  omega)] at heq
                dsimp only
                omega
            · rw [List.mem_singleton.1 hx]
              exact reservedSum_eq_zero rest s.nextId hrest4
          · intro tk htk
            have := hrest4 tk htk
            dsimp only
            omega
          · intro x hx
            rcases List.mem_append.1 hx with hx | hx
            · obtain ⟨v, hv, hcase⟩ := mem_map_update hx
              have := h5 _ hv
              rcases hcase with ⟨_, rfl⟩ | ⟨_, rfl⟩ <;> (dsimp only; omega)
            · rw [List.mem_singleton.1 hx]
              dsimp only
              omega
          · intro q hq
            obtain ⟨w, hw, hwq⟩ := List.mem_map.1 hq
            have hwo := h6 w hw
            by_cases hc : (w.offerId == oid) = true
            · rw [← hwq, if_pos hc]
              exact hwo
            · rw [← hwq, if_neg hc]
              exact hwo
          · dsimp only
            rw [List.map_append]
            rw [map_update_ids s.units t.unitId
              (fun v => ⟨v.unitId, v.hospital, v.bloodType, v.component,
                v.unitsAvailable, v.unitsReserved - t.count, v.unitsRecorded,
                v.donationDate, v.expiryDate⟩) (fun v => rfl)]
            refine h7.append (List.nodup_singleton _) ?_
            intro a ha hb
            rw [show ([(⟨s.nextId, acc, src.bloodType, src.component, o.unitsOffered, 0,
              o.unitsOffered, src.donationDate, src.expiryDate⟩ : BloodUnit)]).map
              (fun u => u.unitId) = [s.nextId] from rfl] at hb
            rw [List.mem_singleton.1 hb] at ha
            exact hnotid ha
    · cases hok

/-- Helper: `acceptResponse` preserves the engine invariant. -/
theorem Inv_acceptResponse (s : EngineState) (caller rid respId : Nat)
    (p : Transfer × EngineState) (hok : acceptResponse s caller rid respId = .ok p)
    (hInv : Inv s) : Inv p.2 := by
  obtain ⟨tr, s'⟩ := p
  obtain ⟨h1, h2, h3, h4, h5, h6, h7⟩ := hInv
  unfold acceptResponse at hok
  split at hok
  · cases hok
  · rename_i r hr
    split at hok
    · cases hok
    · rename_i resp hresp
      split at hok
      · cases hok
      · split at hok
        · cases hok
        · split at hok
          · cases hok
          · split at hok
            · cases hok
            · rename_i hn1
              split at hok
              · cases hok
              · rename_i src hsrc
                cases hok
                dsimp only [updateUnit, setRequestStatus]
                have hsrcmem : src ∈ s.units := List.mem_of_find?_eq_some hsrc
                have hnle : min resp.unitsOffered r.unitsRequested ≤ src.unitsAvailable := by
                  have hps := List.find?_some hsrc
                  simp only [Bool.and_eq_true] at hps
                  exact of_decide_eq_true hps.2
                have hnotid : s.nextId ∉ s.units.map (fun u => u.unitId) := by
                  intro hc
                  obtain ⟨v, hv, hveq⟩ := List.mem_map.1 hc
                  have := h5 v hv
                  omega
                refine ⟨?_, ?_, h3, ?_, ?_, h6, ?_⟩
                · intro x hx
                  rcases List.mem_append.1 hx with hx | hx
                  · obtain ⟨v, hv, hcase⟩ := mem_map_update hx
                    rcases hcase with ⟨hveq, rfl⟩ | ⟨hveq, rfl⟩
                    · have hvu : v = src := List.inj_on_of_nodup_map h7 hv hsrcmem (by
                        simpa using hveq)
                      obtain ⟨ha, hb, hc⟩ := h1 v hv
                      have hnle' : min resp.unitsOffered r.unitsRequested ≤
                          v.unitsAvailable := by
                        rw [hvu]
                        exact hnle
                      exact ⟨by dsimp only; omega, by dsimp only; omega,
                        by dsimp only; omega⟩
                    · exact h1 _ hv
                  · rw [List.mem_singleton.1 hx]
                    exact ⟨by dsimp only; omega, le_refl 0, by dsimp only; omega⟩
                · intro x hx
                  rcases List.mem_append.1 hx with hx | hx
                  · obtain ⟨v, hv, hcase⟩ := mem_map_update hx
                    have hsum := h2 _ hv
                    rcases hcase with ⟨hveq, rfl⟩ | ⟨hveq, rfl⟩
                    · dsimp only
                      exact hsum
                    · exact hsum
                  · rw [List.mem_singleton.1 hx]
                    exact reservedSum_eq_zero s.tokens s.nextId h4
                · intro tk htk
                  have := h4 tk htk
                  dsimp only
                  omega
                · intro x hx
                  rcases List.mem_append.1 hx with hx | hx
                  · obtain ⟨v, hv, hcase⟩ := mem_map_update hx
                    have := h5 _ hv
                    rcases hcase with ⟨_, rfl⟩ | ⟨_, rfl⟩ <;> (dsimp only; omega)
                  · rw [List.mem_singleton.1 hx]
                    dsimp only
                    omega
                · dsimp only
                  rw [List.map_append]
                  rw [map_update_ids s.units src.unitId
                    (fun v => ⟨v.unitId, v.hospital, v.bloodType, v.component,
                      v.unitsAvailable - min resp.unitsOffered r.unitsRequested,
                      v.unitsReserved, v.unitsRecorded,
                      v.donationDate, v.expiryDate⟩) (fun v => rfl)]
                  refine h7.append (List.nodup_singleton _) ?_
                  intro a ha hb
                  rw [show ([(⟨s.nextId, caller, r.bloodType, r.component,
                    min resp.unitsOffered r.unitsRequested, 0,
                    min resp.unitsOffered r.unitsRequested,
                    src.donationDate, src.expiryDate⟩ : BloodUnit)]).map
                    (fun u => u.unitId) = [s.nextId] from rfl] at hb
                  rw [List.mem_singleton.1 hb] at ha
                  exact hnotid ha

/-- Helper: `createRequest` preserves the engine invariant. -/
theorem Inv_createRequest (s : EngineState) (hosp : Nat) (bt comp : String)
    (n : Int) (tgt : Option Nat) (p : BloodRequest × EngineState)
    (hok : createRequest s hosp bt comp n tgt = .ok p) (hInv : Inv s) : Inv p.2 := by
  obtain ⟨r, s'⟩ := p
  obtain ⟨h1, h2, h3, h4, h5, h6, h7⟩ := hInv
  unfold createRequest at hok
  split at hok
  · cases hok
  · cases hok
    refine ⟨h1, h2, h3, ?_, ?_, h6, h7⟩
    · intro t ht
      have := h4 t ht
      dsimp only
      omega
    · intro x hx
      have := h5 x hx
      dsimp only
      omega

/-- Helper: `respond` preserves the engine invariant. -/
theorem Inv_respond (s : EngineState) (hosp rid : Nat) (n : Int)
    (p : RequestResponse × EngineState) (hok : respond s hosp rid n = .ok p)
    (hInv : Inv s) : Inv p.2 := by
  obtain ⟨resp, s'⟩ := p
  obtain ⟨h1, h2, h3, h4, h5, h6, h7⟩ := hInv
  unfold respond at hok
  split at hok
  · cases hok
  · split at hok
    · cases hok
    · split at hok
      · cases hok
      · cases hok
        refine ⟨h1, h2, h3, ?_, ?_, h6, h7⟩
        · intro t ht
          have := h4 t ht
          dsimp only
          omega
        · intro x hx
          have := h5 x hx
          dsimp only
          omega

/-- Helper: `updateRequestStatus` preserves the engine invariant. -/
theorem Inv_updateRequestStatus (s : EngineState) (caller rid : Nat) (st : ReqStatus)
    (p : BloodRequest × EngineState)
    (hok : updateRequestStatus s caller rid st = .ok p) (hInv : Inv s) : Inv p.2 := by
  obtain ⟨r', s'⟩ := p
  obtain ⟨h1, h2, h3, h4, h5, h6, h7⟩ := hInv
  unfold updateRequestStatus at hok
  split at hok
  · cases hok
  · split at hok
    · cases hok
    · split at hok
      · cases hok
      · split at hok
        · cases hok
        · split at hok
          · cases hok
            exact ⟨h1, h2, h3, h4, h5, h6, h7⟩
          · cases hok

/-- Helper: every engine operation preserves the invariant (a failing
call leaves the state untouched). -/
theorem Inv_step (s : EngineState) (c : Command) (hInv : Inv s) : Inv (step s c) := by
  cases c with
  | addStock h bt comp u d e =>
    simp only [step]
    cases hop : addStock s h bt comp u d e with
    | error _ => exact hInv
    | ok p =>
      obtain ⟨x, s'⟩ := p
      exact Inv_addStock s h bt comp u d e (x, s') hop hInv
  | reserve uid count =>
    simp only [step]
    cases hop : reserve s uid count with
    | error _ => exact hInv
    | ok p =>
      obtain ⟨x, s'⟩ := p
      exact Inv_reserve s uid count (x, s') hop hInv
  | release tid =>
    simp only [step]
    cases hop : release s tid with
    | error _ => exact hInv
    | ok s' => exact Inv_release s tid s' hop hInv
  | commitTok tid =>
    simp only [step]
    cases hop : commitTok s tid with
    | error _ => exact hInv
    | ok s' => exact Inv_commitTok s tid s' hop hInv
  | scheduleDonation h refs =>
    simp only [step]
    cases hop : scheduleDonation s h refs with
    | error _ => exact hInv
    | ok q =>
      obtain ⟨os, s'⟩ := q
      unfold scheduleDonation at hop
      split at hop
      · cases hop
      · exact Inv_scheduleGo h refs s (os, s') hop hInv
  | acceptDonation h oid =>
    simp only [step]
    cases hop : acceptDonation s h oid with
    | error _ => exact hInv
    | ok p =>
      obtain ⟨tr, s'⟩ := p
      exact Inv_acceptDonation s h oid (tr, s') hop hInv
  | createRequest h bt comp n tgt =>
    simp only [step]
    cases hop : createRequest s h bt comp n tgt with
    | error _ => exact hInv
    | ok p =>
      obtain ⟨r, s'⟩ := p
      exact Inv_createRequest s h bt comp n tgt (r, s') hop hInv
  | respond h rid n =>
    simp only [step]
    cases hop : respond s h rid n with
    | error _ => exact hInv
    | ok p =>
      obtain ⟨resp, s'⟩ := p
      exact Inv_respond s h rid n (resp, s') hop hInv
  | acceptResponse c rid respId =>
    simp only [step]
    cases hop : acceptResponse s c rid respId with
    | error _ => exact hInv
    | ok p =>
      obtain ⟨tr, s'⟩ := p
      exact Inv_acceptResponse s c rid respId (tr, s') hop hInv
  | updateRequestStatus c rid st =>
    simp only [step]
    cases hop : updateRequestStatus s c rid st with
    | error _ => exact hInv
    | ok p =>
      obtain ⟨r, s'⟩ := p
      exact Inv_updateRequestStatus s c rid st (r, s') hop hInv

/-- Helper: the empty engine state satisfies the invariant. -/
theorem Inv_initialState : Inv initialState :=
  ⟨(fun _ hx => nomatch hx), (fun _ hx => nomatch hx), (fun _ hx => nomatch hx),
   (fun _ hx => nomatch hx), (fun _ hx => nomatch hx), (fun _ hx => nomatch hx),
   List.nodup_nil⟩

/-- Helper: the invariant holds along any run of engine operations. -/
theorem Inv_run (cs : List Command) : ∀ s, Inv s → Inv (runCommands s cs) := by
  induction cs with
  | nil =>
    intro s h
    exact h
  | cons c cs ih =>
    intro s h
    exact ih _ (Inv_step s c h)

/-- C1: in every engine state reachable from the empty ledger by any
sequence of operations (addStock, reserve, release, commit,
scheduleDonation, acceptDonation, createRequest, respond, acceptResponse,
updateRequestStatus), every BloodUnit row has `units_available ≥ 0`,
`units_reserved ≥ 0`, and their sum never exceeds the units originally
recorded for that row. -/
theorem c1_counter_invariants (cs : List Command) :
    ∀ u ∈ (runCommands initialState cs).units,
      0 ≤ u.unitsAvailable ∧ 0 ≤ u.unitsReserved ∧
      u.unitsAvailable + u.unitsReserved ≤ u.unitsRecorded := by
  intro u hu
  exact (Inv_run cs initialState Inv_initialState).1 u hu

/-- Witness for C1: after adding stock, offering it for donation and the
offer being accepted, the surviving rows' counters satisfy the bounds. -/
theorem c1_invariants_witness :
    (⟨0, 1, "O-", "Packed Cells", 10, 0, 10, 0, 41⟩ : BloodUnit) ∈
      (runCommands initialState [.addStock 1 "O-" "Packed Cells" 10 0 41]).units ∧
    ((0 : Int) ≤ 10 ∧ (0 : Int) ≤ 0 ∧ (10 : Int) + 0 ≤ 10) :=
  ⟨by decide, c1_counter_invariants [.addStock 1 "O-" "Packed Cells" 10 0 41]
    ⟨0, 1, "O-", "Packed Cells", 10, 0, 10, 0, 41⟩ (by decide)⟩

/-- Witness for C8: from a state holding one PENDING request, the owner
cancels it — an allowed transition — and responding to a non-pending
request is vacuously covered. -/
theorem c8_state_machine_witness :
    (ReqStatus.pending = ReqStatus.cancelled ∨
      allowedTransition ReqStatus.pending ReqStatus.cancelled = true) ∧
    (isTerminal ReqStatus.pending = true → ReqStatus.cancelled = ReqStatus.pending) ∧
    (∀ hosp n, ReqStatus.pending ≠ ReqStatus.pending →
      respond ⟨[], [], [], [⟨0, 1, none, "A+", "Whole Blood", 5, .pending⟩], [], 1⟩
        hosp 0 n = Except.error Err.stateErr) :=
  c8_request_state_machine
    ⟨[], [], [], [⟨0, 1, none, "A+", "Whole Blood", 5, .pending⟩], [], 1⟩
    (.updateRequestStatus 1 0 .cancelled) 0 ReqStatus.pending ReqStatus.cancelled
    rfl rfl

end BloodLink
